import Mathlib

/-!
# Pencil: undo history of the editor and loading of documents

A shallow embedding of the undo/redo engine of `src/core_lib/interface/editor.cpp`
(`Editor::backup`, `BackupBitmapElement::restore`, `BackupVectorElement::restore`,
`Editor::undo`, `Editor::redo`, `Editor::clearUndoStack`) and of the loading code of
`src/core_lib/structure/filemanager.cpp` (`FileManager::load`, `loadObject`,
`loadObjectOldWay`, `loadEditorState`, `extractEditorStateData`), with theorems about
them.

Conventions of the embedding.

* C++ `int` values are `Int`; every index and size that occurs is bounded by the
  history size, so no wrap-around is modelled.
* `QList::operator[]` on an index outside `[0, size)` and a write through a null
  image pointer have no defined behaviour: both are results `Except.error` of the
  operation that performs them, and no state follows them.
* Signals (`emit updateBackup()`, `currentFrameChanged`, `updateTimeLine`) and the
  repaint requests `updateFrame` / `updateFrameAndVector` carry no state and are
  left out.
* Image contents are opaque tokens: the engine only copies them.
* A loop of the loading code that need not end runs on fuel; `LoadStop.outOfFuel` for
  every amount of fuel means that the loop does not end.
* Calls into Qt, JlCompress and the classes whose code is not among the sources are
  parameters (`QStringConv`, `FileSystem`, `ObjectCalls`, `FileFormat`).
-/

namespace Pencil

/-! ## Document model -/

/-- Modelled from the spec: the layer type tag (`layer.h` is not among the sources);
"a Layer has a type tag (BITMAP | VECTOR | SOUND | CAMERA)". -/
inductive LayerType where
  | BITMAP
  | VECTOR
  | SOUND
  | CAMERA
  deriving DecidableEq, Repr

/-- Image content of one key frame (a `BitmapImage` pixel buffer or a `VectorImage`
shape graph), kept as an opaque token. -/
abbrev Image := Nat

/-- Modelled from the spec: a layer (`layer.h`, `layerbitmap.h`, `layervector.h` are
not among the sources); "each Layer holding frames keyed by integer index; a Layer
has a type tag". `keys` is the association list position ↦ image content. -/
structure Layer where
  type : LayerType
  keys : List (Int × Image)
  deriving DecidableEq, Repr

/-- Modelled from the spec: the document (`object.h` is not among the sources);
"ordered sequence of Layer". -/
structure Object where
  layers : List Layer
  deriving DecidableEq, Repr

/-- Modelled from the spec: `Object::getLayer(index)`, the layer at `index`, or null
(`none`) when there is no such layer. -/
def Object.getLayer (o : Object) (i : Int) : Option Layer :=
  if 0 ≤ i then o.layers[i.toNat]? else none

/-- Replace the layer at `i` (the effect of writing through the `Layer*` that
`getLayer` returned). -/
def Object.setLayer (o : Object) (i : Int) (l : Layer) : Object :=
  if 0 ≤ i then { layers := o.layers.set i.toNat l } else o

/-- The greatest key position that is at most `pos`, if there is one. -/
def lastKeyPosition : List (Int × Image) → Int → Option Int
  | [], _ => none
  | k :: rest, pos =>
    match lastKeyPosition rest pos with
    | none => if k.1 ≤ pos then some k.1 else none
    | some q => if k.1 ≤ pos ∧ q < k.1 then some k.1 else some q

/-- Modelled from the spec: `getLastBitmapImageAtFrame` / `getLastVectorImageAtFrame`
(not among the sources); "frame-level getLastImageAtFrame(frame, offset) returning
the most recent image content at or before a frame", null (`none`) when the layer
has no key at or before it. -/
def Layer.getLastImageAtFrame (l : Layer) (frame increment : Int) : Option Image :=
  match lastKeyPosition l.keys (frame + increment) with
  | none => none
  | some p => l.keys.lookup p

/-- Overwrite the content stored under key position `p`. -/
def assignKey (keys : List (Int × Image)) (p : Int) (img : Image) : List (Int × Image) :=
  keys.map (fun k => if k.1 = p then (k.1, img) else k)

/-- The assignment `*( layer->getLast…ImageAtFrame( frame, 0 ) ) = image`: the content
of the key that `getLastImageAtFrame` resolves to is replaced; `none` when the
pointer is null. -/
def Layer.assignLastImageAtFrame (l : Layer) (frame increment : Int) (img : Image) :
    Option Layer :=
  match lastKeyPosition l.keys (frame + increment) with
  | none => none
  | some p => some { l with keys := assignKey l.keys p img }

/-! ## Canvas selection state and backup elements -/

/-- A selection rectangle; the engine only copies it. -/
structure QRectF where
  x : Int
  y : Int
  w : Int
  h : Int
  deriving DecidableEq, Repr

/-- The fields of `ScribbleArea` that the undo engine reads and writes. -/
structure ScribbleArea where
  somethingSelected : Bool
  mySelection : QRectF
  myTransformedSelection : QRectF
  myTempTransformedSelection : QRectF
  deriving DecidableEq, Repr

/-- Modelled from the spec: the two canvas calls made by `Editor::undo`
(`scribblearea.cpp` is not among the sources); "Signal canvas to cancel any
in-progress transform and recompute selection bounds". They are arbitrary functions
of the document, the current layer and frame, and the selection state, and yield a
new selection state. -/
structure Canvas where
  cancelTransformedSelection : Object → Int → Int → ScribbleArea → ScribbleArea
  calculateSelectionRect : Object → Int → Int → ScribbleArea → ScribbleArea

/-- The value of `BackupElement::type()`. -/
inductive BackupType where
  | BITMAP_MODIF
  | VECTOR_MODIF
  deriving DecidableEq, Repr

/-- A `BackupBitmapElement` or `BackupVectorElement`: `image` is the owned copy
`bitmapImage` / `vectorImage`. -/
structure BackupElement where
  type : BackupType
  layer : Int
  frame : Int
  undoText : String
  somethingSelected : Bool
  mySelection : QRectF
  myTransformedSelection : QRectF
  myTempTransformedSelection : QRectF
  image : Image
  deriving DecidableEq, Repr

/-- The state of `Editor` that the undo engine touches. `currentLayerIndex` is
`layers()->currentLayerIndex()`. -/
structure Editor where
  mObject : Object
  mBackupList : List BackupElement
  mBackupIndex : Int
  lastModifiedLayer : Int
  lastModifiedFrame : Int
  mFrame : Int
  currentLayerIndex : Int
  mScribbleArea : ScribbleArea
  deriving DecidableEq, Repr

/-- The two ways an operation can leave defined behaviour. -/
inductive Fault where
  | indexOutOfRange
  | nullImage
  deriving DecidableEq, Repr

/-- The element `l[i]` of a `QList` for a C++ `int` index, `none` outside `[0, size)`. -/
def listAt {α : Type} (l : List α) (i : Int) : Option α :=
  if 0 ≤ i then l[i.toNat]? else none

/-! ## `Editor::backup` -/

/-- The loop `while ( size - 1 > mBackupIndex && size > 0 ) delete takeLast()`. -/
def pruneLoop : Nat → List BackupElement → Int → List BackupElement
  | 0, l, _ => l
  | fuel + 1, l, idx =>
    if (l.length : Int) - 1 > idx ∧ (l.length : Int) > 0 then
      pruneLoop fuel l.dropLast idx
    else l

/-- The loop `while ( size > 19 ) { delete takeFirst(); mBackupIndex--; }`. -/
def evictLoop : Nat → List BackupElement → Int → List BackupElement × Int
  | 0, l, idx => (l, idx)
  | fuel + 1, l, idx =>
    if (l.length : Int) > 19 then evictLoop fuel l.tail (idx - 1) else (l, idx)

/-- The element built by `Editor::backup` from the image found and the current
selection of the canvas. -/
def Editor.newElement (e : Editor) (t : BackupType) (backupLayer backupFrame : Int)
    (undoText : String) (img : Image) : BackupElement :=
  { type := t
    layer := backupLayer
    frame := backupFrame
    undoText := undoText
    somethingSelected := e.mScribbleArea.somethingSelected
    mySelection := e.mScribbleArea.mySelection
    myTransformedSelection := e.mScribbleArea.myTransformedSelection
    myTempTransformedSelection := e.mScribbleArea.myTempTransformedSelection
    image := img }

/-- The first two loops of `Editor::backup(int, int, QString)`: redo-branch pruning,
then eviction from the front. Each loop runs on fuel equal to the list length,
which bounds its iterations. -/
def Editor.backupTrim (e : Editor) : Editor :=
  let l1 := pruneLoop e.mBackupList.length e.mBackupList e.mBackupIndex
  let r := evictLoop l1.length l1 e.mBackupIndex
  { e with mBackupList := r.1, mBackupIndex := r.2 }

/-- The method `Editor::backup( int backupLayer, int backupFrame, QString undoText )`. -/
def Editor.backup (e : Editor) (backupLayer backupFrame : Int) (undoText : String) :
    Editor :=
  let e1 := e.backupTrim
  match e1.mObject.getLayer backupLayer with
  | none => e1
  | some layer =>
    if layer.type = LayerType.BITMAP then
      match layer.getLastImageAtFrame backupFrame 0 with
      | none => e1
      | some bitmapImage =>
        { e1 with
          mBackupList := e1.mBackupList ++
            [e1.newElement BackupType.BITMAP_MODIF backupLayer backupFrame undoText bitmapImage]
          mBackupIndex := e1.mBackupIndex + 1 }
    else if layer.type = LayerType.VECTOR then
      match layer.getLastImageAtFrame backupFrame 0 with
      | none => e1
      | some vectorImage =>
        { e1 with
          mBackupList := e1.mBackupList ++
            [e1.newElement BackupType.VECTOR_MODIF backupLayer backupFrame undoText vectorImage]
          mBackupIndex := e1.mBackupIndex + 1 }
    else e1

/-- The method `Editor::backup( QString undoText )`. -/
def Editor.backupText (e : Editor) (undoText : String) : Editor :=
  let e1 :=
    if e.lastModifiedLayer > -1 ∧ e.lastModifiedFrame > 0 then
      e.backup e.lastModifiedLayer e.lastModifiedFrame undoText
    else e
  if e1.lastModifiedLayer ≠ e1.currentLayerIndex ∨ e1.lastModifiedFrame ≠ e1.mFrame then
    e1.backup e1.currentLayerIndex e1.mFrame undoText
  else e1

/-! ## Restoring an element -/

/-- The method `Editor::scrubTo( int frame )`. -/
def Editor.scrubTo (e : Editor) (frame : Int) : Editor :=
  { e with mFrame := if frame < 1 then 1 else frame }

/-- The selection fields that `restore` copies from the element to the canvas. -/
def BackupElement.selection (el : BackupElement) : ScribbleArea :=
  { somethingSelected := el.somethingSelected
    mySelection := el.mySelection
    myTransformedSelection := el.myTransformedSelection
    myTempTransformedSelection := el.myTempTransformedSelection }

/-- The document after the first statement of `restore`: when the layer exists and
has type `want`, the image is assigned through the pointer returned by
`getLast…ImageAtFrame( frame, 0 )`; a null pointer there is a fault. -/
def BackupElement.restoreImage (el : BackupElement) (want : LayerType) (o : Object) :
    Except Fault Object :=
  match o.getLayer el.layer with
  | none => Except.ok o
  | some layer =>
    if layer.type = want then
      match layer.assignLastImageAtFrame el.frame 0 el.image with
      | none => Except.error Fault.nullImage
      | some layer1 => Except.ok (o.setLayer el.layer layer1)
    else Except.ok o

/-- The method `BackupBitmapElement::restore( Editor* editor )`. -/
def BackupElement.restoreBitmap (el : BackupElement) (e : Editor) : Except Fault Editor :=
  match el.restoreImage LayerType.BITMAP e.mObject with
  | Except.error f => Except.error f
  | Except.ok o =>
    Except.ok (Editor.scrubTo { e with mObject := o, mScribbleArea := el.selection } el.frame)

/-- The method `BackupVectorElement::restore( Editor* editor )`. -/
def BackupElement.restoreVector (el : BackupElement) (e : Editor) : Except Fault Editor :=
  match el.restoreImage LayerType.VECTOR e.mObject with
  | Except.error f => Except.error f
  | Except.ok o =>
    Except.ok (Editor.scrubTo { e with mObject := o, mScribbleArea := el.selection } el.frame)

/-- The virtual call `element->restore( editor )`. -/
def BackupElement.restore (el : BackupElement) (e : Editor) : Except Fault Editor :=
  match el.type with
  | BackupType.BITMAP_MODIF => el.restoreBitmap e
  | BackupType.VECTOR_MODIF => el.restoreVector e

/-! ## `Editor::undo`, `Editor::redo`, `Editor::clearUndoStack` -/

/-- The block of `Editor::undo` guarded by `mBackupIndex == mBackupList.size() - 1`:
the location of the last element is backed up again under the label `NoOp` and the
cursor is decremented, once for the variant the element has. -/
def Editor.undoAtEnd (e : Editor) : Except Fault Editor :=
  if e.mBackupIndex = (e.mBackupList.length : Int) - 1 then
    match listAt e.mBackupList e.mBackupIndex with
    | none => Except.error Fault.indexOutOfRange
    | some lastBackupElement =>
      let e1 :=
        if lastBackupElement.type = BackupType.BITMAP_MODIF then
          let b := e.backup lastBackupElement.layer lastBackupElement.frame "NoOp"
          { b with mBackupIndex := b.mBackupIndex - 1 }
        else e
      let e2 :=
        if lastBackupElement.type = BackupType.VECTOR_MODIF then
          let b := e1.backup lastBackupElement.layer lastBackupElement.frame "NoOp"
          { b with mBackupIndex := b.mBackupIndex - 1 }
        else e1
      Except.ok e2
  else Except.ok e

/-- The method `Editor::undo()`. -/
def Editor.undo (cv : Canvas) (e : Editor) : Except Fault Editor :=
  if (e.mBackupList.length : Int) > 0 ∧ e.mBackupIndex > -1 then
    match e.undoAtEnd with
    | Except.error f => Except.error f
    | Except.ok e1 =>
      match listAt e1.mBackupList e1.mBackupIndex with
      | none => Except.error Fault.indexOutOfRange
      | some el =>
        match el.restore e1 with
        | Except.error f => Except.error f
        | Except.ok e2 =>
          let e3 := { e2 with mBackupIndex := e2.mBackupIndex - 1 }
          let s1 := cv.cancelTransformedSelection e3.mObject e3.currentLayerIndex e3.mFrame
            e3.mScribbleArea
          let s2 := cv.calculateSelectionRect e3.mObject e3.currentLayerIndex e3.mFrame s1
          Except.ok { e3 with mScribbleArea := s2 }
  else Except.ok e

/-- The method `Editor::redo()`. -/
def Editor.redo (e : Editor) : Except Fault Editor :=
  if (e.mBackupList.length : Int) > 0 ∧ e.mBackupIndex < (e.mBackupList.length : Int) - 2 then
    let e1 := { e with mBackupIndex := e.mBackupIndex + 1 }
    match listAt e1.mBackupList (e1.mBackupIndex + 1) with
    | none => Except.error Fault.indexOutOfRange
    | some el => el.restore e1
  else Except.ok e

/-- The loop `while ( !mBackupList.isEmpty() ) delete mBackupList.takeLast()`. -/
def clearLoop : Nat → List BackupElement → List BackupElement
  | 0, l => l
  | fuel + 1, l => if l.isEmpty then l else clearLoop fuel l.dropLast

/-- The method `Editor::clearUndoStack()`. -/
def Editor.clearUndoStack (e : Editor) : Editor :=
  { e with
    mBackupIndex := -1
    mBackupList := clearLoop e.mBackupList.length e.mBackupList
    lastModifiedLayer := -1
    lastModifiedFrame := -1 }

/-! ## Call sequences -/

/-- One step of a session: a call into the undo engine, or `edit`, any change made by
the rest of the application to the state the engine does not own (document, current
frame and layer, last-modified location, canvas selection). -/
inductive Call where
  | recordEdit (backupLayer backupFrame : Int) (undoText : String)
  | recordEditText (undoText : String)
  | undo
  | redo
  | clear
  | edit (mObject : Object) (mFrame currentLayerIndex lastModifiedLayer lastModifiedFrame : Int)
      (mScribbleArea : ScribbleArea)
  deriving DecidableEq, Repr

/-- The effect of one call. -/
def Editor.call (cv : Canvas) (e : Editor) : Call → Except Fault Editor
  | Call.recordEdit l f t => Except.ok (e.backup l f t)
  | Call.recordEditText t => Except.ok (e.backupText t)
  | Call.undo => e.undo cv
  | Call.redo => e.redo
  | Call.clear => Except.ok e.clearUndoStack
  | Call.edit o fr cl ml mf s =>
    Except.ok { e with
      mObject := o, mFrame := fr, currentLayerIndex := cl
      lastModifiedLayer := ml, lastModifiedFrame := mf, mScribbleArea := s }

/-- Run a sequence of calls, stopping at the first fault. -/
def Editor.run (cv : Canvas) : Editor → List Call → Except Fault Editor
  | e, [] => Except.ok e
  | e, c :: cs =>
    match e.call cv c with
    | Except.error f => Except.error f
    | Except.ok e1 => Editor.run cv e1 cs

/-- The editor as `Editor::Editor` leaves the history: empty list, cursor `-1`. -/
def Editor.emptyHistory (e : Editor) : Prop :=
  e.mBackupList = [] ∧ e.mBackupIndex = -1

/-- The history invariants of the spec: at most 20 entries, cursor in `[-1, size-1]`. -/
def Editor.historyOk (e : Editor) : Prop :=
  e.mBackupList.length ≤ 20 ∧ -1 ≤ e.mBackupIndex ∧
    e.mBackupIndex ≤ (e.mBackupList.length : Int) - 1

/-- The image content that `getLast…ImageAtFrame( frame, 0 )` finds on layer `layer`
of the document, `none` when the layer or the key frame is missing. -/
def Object.imageAt (o : Object) (layer frame : Int) : Option Image :=
  match o.getLayer layer with
  | none => none
  | some l => l.getLastImageAtFrame frame 0

/-- The layer type on which `restore` of an element of this variant acts
(`Layer::BITMAP` in `BackupBitmapElement::restore`, `Layer::VECTOR` in
`BackupVectorElement::restore`). -/
def BackupType.layerType : BackupType → LayerType
  | BackupType.BITMAP_MODIF => LayerType.BITMAP
  | BackupType.VECTOR_MODIF => LayerType.VECTOR

/-- The element targets a layer that is still of the element's kind and has image
content at the element's frame, so that `restore` writes the snapshot there. -/
def BackupElement.restorable (el : BackupElement) (o : Object) : Prop :=
  ∃ lay, o.getLayer el.layer = some lay ∧ lay.type = el.type.layerType ∧
    (lay.getLastImageAtFrame el.frame 0).isSome = true

/-- Document `o1` has the layer types of `o` and content at the same cells. -/
def Object.sameShape (o o1 : Object) : Prop :=
  ∀ l g, (o1.getLayer l).map Layer.type = (o.getLayer l).map Layer.type ∧
    (o1.imageAt l g).isSome = (o.imageAt l g).isSome

/-- The element's location is a BITMAP or VECTOR layer with image content at the
element's frame, so that `backup` of that location records an entry. -/
def BackupElement.recordable (el : BackupElement) (o : Object) : Prop :=
  ∃ lay, o.getLayer el.layer = some lay ∧
    (lay.type = LayerType.BITMAP ∨ lay.type = LayerType.VECTOR) ∧
    (lay.getLastImageAtFrame el.frame 0).isSome = true

/-! ## XML documents and the editor state (`filemanager.cpp`) -/

/-- A node of a `QDomDocument`: an element with its tag name, attributes and child
nodes, a text node, or a comment. -/
inductive QDomNode where
  | element (tagName : String) (attributes : List (String × String))
      (children : List QDomNode)
  | text (data : String)
  | comment (data : String)

/-- A non-null `QDomElement`. -/
structure QDomElement where
  tagName : String
  attributes : List (String × String)
  children : List QDomNode

/-- The conversion `node.toElement()`: the element, or the null element (`none`) when
the node is not an element. -/
def QDomNode.toElement : QDomNode → Option QDomElement
  | QDomNode.element t a c => some { tagName := t, attributes := a, children := c }
  | QDomNode.text _ => none
  | QDomNode.comment _ => none

/-- The call `element.attribute( name, defValue )`: the value of the attribute, or
`defValue` when the element has no such attribute. -/
def QDomElement.attribute (el : QDomElement) (name : String) (defValue : String) : String :=
  (el.attributes.lookup name).getD defValue

/-- A `double`, kept as an opaque token: the engine only stores it. -/
abbrev QReal := Nat

/-- The Qt conversions `QString::toInt` and `QString::toDouble`; Qt is not part of the
repository, so they are parameters of the embedding. -/
structure QStringConv where
  toInt : String → Int
  toDouble : String → QReal

/-- The value `QColor( r, g, b, a )`. -/
structure QColor where
  r : Int
  g : Int
  b : Int
  a : Int
  deriving DecidableEq, Repr

/-- The value `QTransform( m11, m12, m21, m22, dx, dy )`. -/
structure QTransform where
  m11 : QReal
  m12 : QReal
  m21 : QReal
  m22 : QReal
  dx : QReal
  dy : QReal
  deriving DecidableEq, Repr

/-- Modelled from the spec: the class `EditorState` (`editorstate.h` is not among the
sources); "current frame, current color as RGBA, current layer index, current view
transform as a 2×3 affine matrix, frame rate, loop flag, ranged-playback flag,
mark-in/mark-out frame". The field names are those `extractEditorStateData` writes;
`mMarkOutFrame` is the mark-out field of the spec. -/
structure EditorState where
  mCurrentFrame : Int
  mCurrentColor : QColor
  mCurrentLayer : Int
  mCurrentView : QTransform
  mFps : Int
  mIsLoop : Bool
  mIsRangedPlayback : Bool
  mMarkInFrame : Int
  mMarkOutFrame : Int
  deriving DecidableEq, Repr

/-- The method `FileManager::extractEditorStateData( element, data )`; the result is
the state `*data` after the call. `element.attribute( "value" )` without a default
has the null string, written `""`, as its default. -/
def extractEditorStateData (conv : QStringConv) (element : QDomElement) (data : EditorState) :
    EditorState :=
  let strName := element.tagName
  if strName = "currentFrame" then
    { data with mCurrentFrame := conv.toInt (element.attribute "value" "") }
  else if strName = "currentColor" then
    let r := conv.toInt (element.attribute "r" "255")
    let g := conv.toInt (element.attribute "g" "255")
    let b := conv.toInt (element.attribute "b" "255")
    let a := conv.toInt (element.attribute "a" "255")
    { data with mCurrentColor := { r := r, g := g, b := b, a := a } }
  else if strName = "currentLayer" then
    { data with mCurrentLayer := conv.toInt (element.attribute "value" "0") }
  else if strName = "currentView" then
    let m11 := conv.toDouble (element.attribute "m11" "1")
    let m12 := conv.toDouble (element.attribute "m12" "0")
    let m21 := conv.toDouble (element.attribute "m21" "0")
    let m22 := conv.toDouble (element.attribute "m22" "1")
    let dx := conv.toDouble (element.attribute "dx" "0")
    let dy := conv.toDouble (element.attribute "dy" "0")
    { data with
      mCurrentView := { m11 := m11, m12 := m12, m21 := m21, m22 := m22, dx := dx, dy := dy } }
  else if strName = "fps" then
    { data with mFps := conv.toInt (element.attribute "value" "12") }
  else if strName = "isLoop" then
    { data with mIsLoop := decide (element.attribute "value" "false" = "true") }
  else if strName = "isRangedPlayback" then
    { data with mIsRangedPlayback := decide (element.attribute "value" "false" = "true") }
  else if strName = "markInFrame" then
    { data with mMarkInFrame := conv.toInt (element.attribute "value" "0") }
  else if strName = "markOutFrame" then
    { data with mMarkInFrame := conv.toInt (element.attribute "value" "15") }
  else data

/-- The ways a load can stop without returning: a failed `Q_ASSERT`, or the fuel of the
embedding running out before a loop has ended. -/
inductive LoadStop where
  | assertFailed
  | outOfFuel
  deriving DecidableEq, Repr

/-- The `while ( !tag.isNull() )` loop of `FileManager::loadEditorState`. The list is
the node `tag` followed by its next siblings (empty when `tag` is null). On a node
that is not an element the body executes `continue` and `tag` stays as it is; on an
element `tag` becomes `tag.nextSibling()`. The state `data` is not touched. -/
def loadEditorStateLoop : Nat → List QDomNode → EditorState → Except LoadStop EditorState
  | _, [], data => Except.ok data
  | 0, _ :: _, _ => Except.error LoadStop.outOfFuel
  | fuel + 1, tag :: siblings, data =>
    match tag.toElement with
    | none => loadEditorStateLoop fuel (tag :: siblings) data
    | some _ => loadEditorStateLoop fuel siblings data

/-- The method `FileManager::loadEditorState( docElem )`; `fresh` is the state that
`new EditorState` constructs and `none` is the null element. -/
def loadEditorState (fuel : Nat) (fresh : EditorState) (docElem : Option QDomElement) :
    Except LoadStop EditorState :=
  match docElem with
  | none => Except.ok fresh
  | some el => loadEditorStateLoop fuel el.children fresh

/-- The editor state the spec describes for an `editor` element: the fresh state
updated by each element child in order, as `extractEditorStateData` defines. -/
def loadEditorStateSpec (conv : QStringConv) (fresh : EditorState) (docElem : QDomElement) :
    EditorState :=
  docElem.children.foldl
    (fun data node =>
      match node.toElement with
      | none => data
      | some element => extractEditorStateData conv element data)
    fresh

/-! ## `FileManager::load` -/

/-- The values of `Status` that `FileManager::load` stores in `mError`, and `OK`. -/
inductive Status where
  | OK
  | FILE_NOT_FOUND
  | ERROR_FILE_CANNOT_OPEN
  | ERROR_INVALID_XML_FILE
  | ERROR_INVALID_PENCIL_FILE
  deriving DecidableEq, Repr

/-- A parsed `QDomDocument`: the name of its document type and its root element (null,
`none`, when there is none). -/
structure QDomDocument where
  doctypeName : String
  documentElement : Option QDomElement

/-- The constants of `fileformat.h`, which is not among the sources. -/
structure FileFormat where
  PFF_OLD_DATA_DIR : String
  PFF_XML_FILE_NAME : String
  PFF_DATA_DIR : String
  PFF_TMP_DECOMPRESS_EXT : String

/-- What the file-system calls of `load` answer: `QFile::exists`,
`JlCompress::getFileList`, `QFile::open( ReadOnly )`, `QDomDocument::setContent` on the
opened file (`none` when the content does not parse), `QDir::tempPath()` and
`QFileInfo::completeBaseName()`. -/
structure FileSystem where
  fileExists : String → Bool
  getFileList : String → List String
  canOpen : String → Bool
  setContent : String → Option QDomDocument
  tempPath : String
  completeBaseName : String → String

/-- Modelled from the spec: the document object as the persistence engine sees it
(`object.h` is not among the sources): the layers, the palette (opaque), the editor
data set by `setEditorData` and the file path set by `setFilePath`. -/
structure Document where
  body : Object
  palette : List Nat
  editorData : Option EditorState
  filePath : String

/-- The methods of `Object` that `load` calls and whose code is not among the sources:
the constructor, `loadPalette`, `loadDefaultPalette` and the deserializer `loadXML`,
each returning its result and the object after the call. -/
structure ObjectCalls where
  create : Document
  loadPalette : String → Document → Bool × Document
  loadDefaultPalette : Document → Document
  loadXML : QDomElement → String → Document → Bool × Document

/-- Everything `load` depends on outside `filemanager.cpp`; `fresh` is the state that
`new EditorState` constructs. -/
structure LoadEnv where
  format : FileFormat
  fs : FileSystem
  obj : ObjectCalls
  fresh : EditorState

/-- The members of `FileManager` that `load` reads and writes; `strDataFolder` is the
member that `loadPalette` passes on. -/
structure FileManager where
  mError : Status
  mstrLastTempFolder : String
  strDataFolder : String
  deriving DecidableEq, Repr

/-- The effects of `load` outside the `FileManager` members and the returned object. -/
inductive FileEvent where
  | progressUpdated
  | mkpath (path : String)
  | removePFFTmpDirectory (path : String)
  | extractDir (zipFile dir : String)
  | newObject
  deriving DecidableEq, Repr

/-- The outcome of `load`: the returned pointer (`none` for `nullptr`), the members
after the call, and the effects in order. -/
structure LoadResult where
  object : Option Document
  manager : FileManager
  events : List FileEvent

/-- The path `QDir( dir ).filePath( name )` for a relative `name`. -/
def filePathIn (dir name : String) : String :=
  dir ++ "/" ++ name

/-- The method `FileManager::isOldForamt( fileName )`. -/
def isOldForamt (env : LoadEnv) (fileName : String) : Bool :=
  (env.fs.getFileList fileName).isEmpty

/-- The method `FileManager::createWorkingFolder( strFileName )`: the folder name; the
call also makes the path. -/
def createWorkingFolder (env : LoadEnv) (strFileName : String) : String :=
  env.fs.tempPath ++ "/Pencil2D/" ++ env.fs.completeBaseName strFileName ++
    env.format.PFF_TMP_DECOMPRESS_EXT

/-- The main XML file, the data folder, the members and the effects after the format
test of `load` (the statements from `isOldForamt` to the end of the `if`/`else`),
with `FileManager::unzip` inlined in the new-format branch. -/
def FileManager.locate (env : LoadEnv) (fm : FileManager) (strFileName : String) :
    String × String × FileManager × List FileEvent :=
  if isOldForamt env strFileName then
    let strMainXMLFile := strFileName
    let strDataFolder := strMainXMLFile ++ "." ++ env.format.PFF_OLD_DATA_DIR
    (strMainXMLFile, strDataFolder, fm, [])
  else
    let strWorkingDir := createWorkingFolder env strFileName
    let fm1 := { fm with mstrLastTempFolder := strWorkingDir }
    (filePathIn strWorkingDir env.format.PFF_XML_FILE_NAME,
      filePathIn strWorkingDir env.format.PFF_DATA_DIR, fm1,
      [FileEvent.mkpath strWorkingDir, FileEvent.removePFFTmpDirectory strWorkingDir,
        FileEvent.extractDir strFileName strWorkingDir])

/-- The method `FileManager::loadPalette( obj )`. -/
def FileManager.loadPalette (env : LoadEnv) (fm : FileManager) (obj : Document) : Document :=
  let r := env.obj.loadPalette fm.strDataFolder obj
  if r.1 then r.2 else env.obj.loadDefaultPalette r.2

/-- The `for` loop of `FileManager::loadObject` over the child nodes of the root, with
the current value of `isOK` and the object; `Q_ASSERT( false )` stops the load. -/
def loadObjectLoop (env : LoadEnv) (fuel : Nat) (strDataFolder : String) :
    List QDomNode → Bool → Document → Except LoadStop (Bool × Document)
  | [], isOK, object => Except.ok (isOK, object)
  | node :: siblings, isOK, object =>
    match node.toElement with
    | none => loadObjectLoop env fuel strDataFolder siblings isOK object
    | some element =>
      if element.tagName = "object" then
        let r := env.obj.loadXML element strDataFolder object
        loadObjectLoop env fuel strDataFolder siblings r.1 r.2
      else if element.tagName = "editor" then
        match loadEditorState fuel env.fresh (some element) with
        | Except.error s => Except.error s
        | Except.ok editorData =>
          loadObjectLoop env fuel strDataFolder siblings isOK
            { object with editorData := some editorData }
      else Except.error LoadStop.assertFailed

/-- The method `FileManager::loadObject( object, root, strDataFolder )`: the returned
`isOK` and the object after the call. -/
def loadObject (env : LoadEnv) (fuel : Nat) (object : Document) (root : QDomElement)
    (strDataFolder : String) : Except LoadStop (Bool × Document) :=
  loadObjectLoop env fuel strDataFolder root.children true object

/-- The method `FileManager::loadObjectOldWay( object, root, strDataFolder )`. -/
def loadObjectOldWay (env : LoadEnv) (object : Document) (root : QDomElement)
    (strDataFolder : String) : Bool × Document :=
  env.obj.loadXML root strDataFolder object

/-- The part of `FileManager::load` from `new Object()` on: the value of the local
`ok` and the object that is returned. -/
def FileManager.loadBody (env : LoadEnv) (fuel : Nat) (fm : FileManager)
    (strFileName strDataFolder : String) (root : QDomElement) :
    Except LoadStop (Bool × Document) :=
  let object := FileManager.loadPalette env fm env.obj.create
  let r : Except LoadStop (Bool × Document) :=
    if root.tagName = "document" then
      loadObject env fuel object root strDataFolder
    else if root.tagName = "object" ∨ root.tagName = "MyOject" then
      Except.ok (loadObjectOldWay env object root strDataFolder)
    else Except.ok (true, object)
  match r with
  | Except.error s => Except.error s
  | Except.ok (ok, object1) => Except.ok (ok, { object1 with filePath := strFileName })

/-- The method `FileManager::load( strFileName )`. -/
def FileManager.load (env : LoadEnv) (fuel : Nat) (fm : FileManager) (strFileName : String) :
    Except LoadStop LoadResult :=
  if env.fs.fileExists strFileName = false then
    Except.ok
      { object := none, manager := { fm with mError := Status.FILE_NOT_FOUND }, events := [] }
  else
    let loc := FileManager.locate env fm strFileName
    let strMainXMLFile := loc.1
    let strDataFolder := loc.2.1
    let fm1 := loc.2.2.1
    let events := FileEvent.progressUpdated :: loc.2.2.2
    let cleanUp := events ++ [FileEvent.removePFFTmpDirectory fm1.mstrLastTempFolder]
    if env.fs.canOpen strMainXMLFile = false then
      Except.ok
        { object := none
          manager := { fm1 with mError := Status.ERROR_FILE_CANNOT_OPEN }
          events := cleanUp }
    else
      match env.fs.setContent strMainXMLFile with
      | none =>
        Except.ok
          { object := none
            manager := { fm1 with mError := Status.ERROR_INVALID_XML_FILE }
            events := cleanUp }
      | some xmlDoc =>
        if ¬ (xmlDoc.doctypeName = "PencilDocument" ∨ xmlDoc.doctypeName = "MyObject") then
          Except.ok
            { object := none
              manager := { fm1 with mError := Status.ERROR_INVALID_PENCIL_FILE }
              events := cleanUp }
        else
          match xmlDoc.documentElement with
          | none =>
            Except.ok
              { object := none
                manager := { fm1 with mError := Status.ERROR_INVALID_PENCIL_FILE }
                events := cleanUp }
          | some root =>
            match FileManager.loadBody env fuel fm1 strFileName strDataFolder root with
            | Except.error s => Except.error s
            | Except.ok (_, object) =>
              Except.ok
                { object := some object
                  manager := fm1
                  events := events ++ [FileEvent.newObject] }

/-! ## Sample states used to instantiate the theorems -/

namespace Sample

/-- A canvas whose two calls leave the selection as it is. -/
def canvas : Canvas :=
  { cancelTransformedSelection := fun _ _ _ s => s
    calculateSelectionRect := fun _ _ _ s => s }

/-- The empty selection. -/
def noSelection : ScribbleArea :=
  { somethingSelected := false
    mySelection := ⟨0, 0, 0, 0⟩
    myTransformedSelection := ⟨0, 0, 0, 0⟩
    myTempTransformedSelection := ⟨0, 0, 0, 0⟩ }

/-- A bitmap layer with keys at frames 1 and 2 holding `a` and `b`, a sound layer,
and a vector layer with one key. -/
def document (a b : Image) : Object :=
  { layers :=
      [ { type := LayerType.BITMAP, keys := [(1, a), (2, b)] },
        { type := LayerType.SOUND, keys := [] },
        { type := LayerType.VECTOR, keys := [(1, 30)] } ] }

/-- A freshly constructed editor on `document 10 20`, current layer 0, frame 1. -/
def editor : Editor :=
  { mObject := document 10 20
    mBackupList := []
    mBackupIndex := -1
    lastModifiedLayer := -1
    lastModifiedFrame := -1
    mFrame := 1
    currentLayerIndex := 0
    mScribbleArea := noSelection }

/-- A bitmap snapshot of layer 0 at `frame` with content `img`. -/
def entry (frame : Int) (img : Image) (label : String) : BackupElement :=
  { type := BackupType.BITMAP_MODIF
    layer := 0
    frame := frame
    undoText := label
    somethingSelected := false
    mySelection := ⟨0, 0, 0, 0⟩
    myTransformedSelection := ⟨0, 0, 0, 0⟩
    myTempTransformedSelection := ⟨0, 0, 0, 0⟩
    image := img }

/-- The sample editor with a given history and cursor. -/
def withHistory (l : List BackupElement) (idx : Int) : Editor :=
  { editor with mBackupList := l, mBackupIndex := idx }

/-- The edit that replaces the document, leaving the rest of the sample state. -/
def draw (o : Object) : Call :=
  Call.edit o 1 0 (-1) (-1) noSelection

/-- The state after drawing frame 1 (snapshot `a`), drawing frame 2 (snapshot `b`) and
one undo: history `[a, b, NoOp]`, cursor 0, frame 1 holds 11. -/
def twoFrames : Editor :=
  { withHistory [entry 1 10 "a", entry 2 20 "b", entry 2 21 "NoOp"] 0 with
    mObject := document 11 20, mFrame := 2 }

/-- The state `twoFrames` after `undo()` and `redo()`: frame 1 holds 10. -/
def twoFramesAfter : Editor :=
  { withHistory [entry 1 10 "a", entry 2 20 "b", entry 2 21 "NoOp"] 0 with
    mObject := document 10 20, mFrame := 2 }

/-- History `[X, Y, Z]` on frame 1 with cursor 2; the frame holds 10. -/
def xyz : Editor :=
  withHistory [entry 1 1 "X", entry 1 2 "Y", entry 1 3 "Z"] 2

/-- The state `xyz` after one `undo()`: a `NoOp` snapshot of the frame's content 10 is
appended, the frame holds the image 3 of `Z`, the cursor is 1. -/
def xyzOnce : Editor :=
  { withHistory [entry 1 1 "X", entry 1 2 "Y", entry 1 3 "Z", entry 1 10 "NoOp"] 1 with
    mObject := document 3 20 }

/-- The state `xyz` after two `undo()` calls: the frame holds the image 2 of `Y`, the
cursor is 0. -/
def xyzTwice : Editor :=
  { withHistory [entry 1 1 "X", entry 1 2 "Y", entry 1 3 "Z", entry 1 10 "NoOp"] 0 with
    mObject := document 2 20 }

/-- The state after drawing frame 1 twice (snapshots `a`, `b`), two undos and one
redo: history `[a, b, NoOp]`, cursor 0, frame 1 holds 11. -/
def oneOfThree : Editor :=
  { withHistory [entry 1 10 "a", entry 1 11 "b", entry 1 12 "NoOp"] 0 with
    mObject := document 11 20 }

/-- A full history: 20 snapshots of frame 1 with contents 0..19, cursor 19. -/
def full : Editor :=
  withHistory ((List.range 20).map (fun i => entry 1 i "e")) 19

/-- The sample editor whose last-modified location is the current one, layer 0
frame 1. -/
def sameCell : Editor :=
  { editor with lastModifiedLayer := 0, lastModifiedFrame := 1 }

/-- The sample document without its vector layer. -/
def documentCut : Object :=
  { layers :=
      [ { type := LayerType.BITMAP, keys := [(1, 10), (2, 20)] },
        { type := LayerType.SOUND, keys := [] } ] }

/-- The state after one recording on the vector layer 2 and the removal of that
layer: one entry, cursor 0. -/
def layerGone : Editor :=
  { editor with
    mObject := documentCut
    mBackupList :=
      [ { type := BackupType.VECTOR_MODIF, layer := 2, frame := 1, undoText := "a"
          somethingSelected := false
          mySelection := ⟨0, 0, 0, 0⟩
          myTransformedSelection := ⟨0, 0, 0, 0⟩
          myTempTransformedSelection := ⟨0, 0, 0, 0⟩
          image := 30 } ]
    mBackupIndex := 0 }

/-- The state after two recordings of frame 1: history `[a, b]`, cursor 1. -/
def twoEntries : Editor :=
  withHistory [entry 1 10 "a", entry 1 10 "b"] 1

/-- The value of a string of decimal digits, `none` when the string is empty or has
another character. -/
def digitsValue (cs : List Char) : Option Nat :=
  if cs.isEmpty then none
  else
    cs.foldl
      (fun acc c =>
        match acc with
        | none => none
        | some n => if c.isDigit then some (10 * n + (c.toNat - 48)) else none)
      (some 0)

/-- A reader of decimal integers with an optional minus sign that gives 0 for any
other text, standing for `QString::toInt`. -/
def decimal (s : String) : Int :=
  match s.toList with
  | '-' :: ds =>
    match digitsValue ds with
    | some n => -(n : Int)
    | none => 0
  | ds =>
    match digitsValue ds with
    | some n => (n : Int)
    | none => 0

/-- Sample conversions: `decimal`, and every double as the token 0. -/
def conv : QStringConv :=
  { toInt := decimal, toDouble := fun _ => 0 }

/-- A sample fresh editor state, with frame rate 12, mark-in 1 and mark-out 10. -/
def freshState : EditorState :=
  { mCurrentFrame := 1
    mCurrentColor := ⟨0, 0, 0, 255⟩
    mCurrentLayer := 0
    mCurrentView := ⟨1, 0, 0, 1, 0, 0⟩
    mFps := 12
    mIsLoop := false
    mIsRangedPlayback := false
    mMarkInFrame := 1
    mMarkOutFrame := 10 }

/-- The element `<editor><fps value="24"/></editor>`. -/
def editorFps : QDomElement :=
  { tagName := "editor", attributes := []
    children := [QDomNode.element "fps" [("value", "24")] []] }

/-- The element `<editor><!--note--><fps value="24"/></editor>`. -/
def editorComment : QDomElement :=
  { tagName := "editor", attributes := []
    children := [QDomNode.comment "note", QDomNode.element "fps" [("value", "24")] []] }

/-- An old-format file system in which every file exists, opens and parses as `xml`. -/
def fileSystem (xml : QDomDocument) : FileSystem :=
  { fileExists := fun _ => true
    getFileList := fun _ => []
    canOpen := fun _ => true
    setContent := fun _ => some xml
    tempPath := "/tmp"
    completeBaseName := fun s => s }

/-- The object a sample `new Object()` constructs. -/
def emptyDocument : Document :=
  { body := ⟨[]⟩, palette := [], editorData := none, filePath := "" }

/-- Sample object methods: no palette file (the default palette is the token list
`[0]`), and a deserializer that adds one bitmap layer and reports `okXML`. -/
def objectCalls (okXML : Bool) : ObjectCalls :=
  { create := emptyDocument
    loadPalette := fun _ d => (false, d)
    loadDefaultPalette := fun d => { d with palette := [0] }
    loadXML := fun _ _ d => (okXML, { d with body := ⟨[⟨LayerType.BITMAP, []⟩]⟩ }) }

/-- A sample environment. -/
def env (xml : QDomDocument) (okXML : Bool) : LoadEnv :=
  { format :=
      { PFF_OLD_DATA_DIR := "data", PFF_XML_FILE_NAME := "main.xml"
        PFF_DATA_DIR := "data", PFF_TMP_DECOMPRESS_EXT := "_tmp" }
    fs := fileSystem xml
    obj := objectCalls okXML
    fresh := freshState }

/-- A file manager before its first load. -/
def manager : FileManager :=
  { mError := Status.OK, mstrLastTempFolder := "", strDataFolder := "" }

/-- The document `<!DOCTYPE PencilDocument><document><object/></document>`. -/
def pencilXml : QDomDocument :=
  { doctypeName := "PencilDocument"
    documentElement :=
      some { tagName := "document", attributes := []
             children := [QDomNode.element "object" [] []] } }

/-- A document `<!DOCTYPE html><html/>`. -/
def htmlXml : QDomDocument :=
  { doctypeName := "html"
    documentElement := some { tagName := "html", attributes := [], children := [] } }

/-- The object the sample deserializer leaves behind: one bitmap layer, the default
palette, stamped with the file name. -/
def partialDocument : Document :=
  { body := ⟨[⟨LayerType.BITMAP, []⟩]⟩, palette := [0], editorData := none
    filePath := "a.pcl" }

/-- The state `full` after 19 undos: the oldest entry is gone, the `NoOp` snapshot of
the content 10 is the last entry, the cursor is -1 and frame 1 holds the image 1 of
the second-oldest entry. -/
def fullUndone : Editor :=
  { withHistory (full.mBackupList.tail ++ [entry 1 10 "NoOp"]) (-1) with
    mObject := document 1 20 }

end Sample

/-! ## The loops of `backup` and `clearUndoStack` in closed form -/

theorem pruneLoop_eq_take (fuel : Nat) (l : List BackupElement) (idx : Int)
    (hf : l.length ≤ fuel) : pruneLoop fuel l idx = l.take (idx + 1).toNat := by
  induction fuel generalizing l with
  | zero =>
    have hl : l = [] := List.length_eq_zero.mp (Nat.le_zero.mp hf)
    subst hl
    simp [pruneLoop]
  | succ n ih =>
    unfold pruneLoop
    split
    · rename_i hc
      rw [ih l.dropLast (by rw [List.length_dropLast]; omega), List.dropLast_eq_take,
        List.take_take]
      congr 1
      omega
    · rename_i hc
      rw [List.take_of_length_le]
      omega

/-- The pruning loop stops only when its condition is false. -/
theorem pruneLoop_exit (l : List BackupElement) (idx : Int) :
    ¬ (((pruneLoop l.length l idx).length : Int) - 1 > idx ∧
      ((pruneLoop l.length l idx).length : Int) > 0) := by
  rw [pruneLoop_eq_take _ _ _ (Nat.le_refl _), List.length_take]
  omega

theorem evictLoop_eq_drop (fuel : Nat) (l : List BackupElement) (idx : Int)
    (hf : l.length ≤ fuel) :
    evictLoop fuel l idx = (l.drop (l.length - 19), idx - ((l.length - 19 : Nat) : Int)) := by
  induction fuel generalizing l idx with
  | zero =>
    have hl : l = [] := List.length_eq_zero.mp (Nat.le_zero.mp hf)
    subst hl
    simp [evictLoop]
  | succ n ih =>
    unfold evictLoop
    split
    · rename_i hc
      have h19 : 19 < l.length := by omega
      rw [ih l.tail (idx - 1) (by rw [List.length_tail]; omega), List.length_tail,
        ← List.drop_one, List.drop_drop]
      have h1 : 1 + (l.length - 1 - 19) = l.length - 19 := by omega
      rw [h1]
      congr 1
      omega
    · rename_i hc
      have h0 : l.length - 19 = 0 := by omega
      simp [h0]

/-- The eviction loop stops only when its condition is false. -/
theorem evictLoop_exit (l : List BackupElement) (idx : Int) :
    ¬ (((evictLoop l.length l idx).1.length : Int) > 19) := by
  rw [evictLoop_eq_drop _ _ _ (Nat.le_refl _)]
  simp only [List.length_drop]
  omega

theorem clearLoop_eq_nil (fuel : Nat) (l : List BackupElement) (hf : l.length ≤ fuel) :
    clearLoop fuel l = [] := by
  induction fuel generalizing l with
  | zero =>
    have hl : l = [] := List.length_eq_zero.mp (Nat.le_zero.mp hf)
    subst hl
    simp [clearLoop]
  | succ n ih =>
    unfold clearLoop
    split
    · rename_i hc
      simpa using hc
    · exact ih l.dropLast (by rw [List.length_dropLast]; omega)

/-! ## Effect of `backup` on the history -/

theorem backupTrim_list (e : Editor) :
    e.backupTrim.mBackupList =
      (e.mBackupList.take (e.mBackupIndex + 1).toNat).drop
        ((e.mBackupList.take (e.mBackupIndex + 1).toNat).length - 19) := by
  simp [Editor.backupTrim, pruneLoop_eq_take, evictLoop_eq_drop]

theorem backupTrim_index (e : Editor) :
    e.backupTrim.mBackupIndex =
      e.mBackupIndex -
        (((e.mBackupList.take (e.mBackupIndex + 1).toNat).length - 19 : Nat) : Int) := by
  simp [Editor.backupTrim, pruneLoop_eq_take, evictLoop_eq_drop]

theorem backupTrim_length_le (e : Editor) : e.backupTrim.mBackupList.length ≤ 19 := by
  rw [backupTrim_list, List.length_drop]
  omega

/-- When the cursor is within `[-1, size-1]`, the trimmed history ends at the cursor. -/
theorem backupTrim_index_eq (e : Editor) (h1 : -1 ≤ e.mBackupIndex)
    (h2 : e.mBackupIndex ≤ (e.mBackupList.length : Int) - 1) :
    e.backupTrim.mBackupIndex = (e.backupTrim.mBackupList.length : Int) - 1 := by
  rw [backupTrim_index, backupTrim_list, List.length_drop, List.length_take]
  omega

/-- The method `backup` either records nothing, leaving the trimmed history, or appends
exactly one element to it and advances the cursor by one. -/
theorem backup_cases (e : Editor) (l f : Int) (t : String) :
    e.backup l f t = e.backupTrim ∨
      ∃ el, e.backup l f t =
        { e.backupTrim with
          mBackupList := e.backupTrim.mBackupList ++ [el]
          mBackupIndex := e.backupTrim.mBackupIndex + 1 } := by
  unfold Editor.backup
  simp only
  split
  · exact Or.inl rfl
  · split
    · split
      · exact Or.inl rfl
      · exact Or.inr ⟨_, rfl⟩
    · split
      · split
        · exact Or.inl rfl
        · exact Or.inr ⟨_, rfl⟩
      · exact Or.inl rfl

theorem backup_length_le (e : Editor) (l f : Int) (t : String) :
    (e.backup l f t).mBackupList.length ≤ 20 := by
  have h := backupTrim_length_le e
  rcases backup_cases e l f t with h1 | ⟨el, h1⟩
  · rw [h1]; omega
  · rw [h1]; simp only [List.length_append, List.length_singleton]; omega

theorem backup_index_eq (e : Editor) (l f : Int) (t : String) (h1 : -1 ≤ e.mBackupIndex)
    (h2 : e.mBackupIndex ≤ (e.mBackupList.length : Int) - 1) :
    (e.backup l f t).mBackupIndex = ((e.backup l f t).mBackupList.length : Int) - 1 := by
  have h := backupTrim_index_eq e h1 h2
  rcases backup_cases e l f t with h3 | ⟨el, h3⟩
  · rw [h3]; exact h
  · rw [h3]; simp only [List.length_append, List.length_singleton]; push_cast; omega

/-! ## Effect of `restore`, `undo` and `redo` on the history -/

theorem restoreBitmap_history (el : BackupElement) (e e1 : Editor)
    (h : el.restoreBitmap e = Except.ok e1) :
    e1.mBackupList = e.mBackupList ∧ e1.mBackupIndex = e.mBackupIndex := by
  unfold BackupElement.restoreBitmap at h
  split at h
  · cases h
  · injection h with h
    subst h
    exact ⟨rfl, rfl⟩

theorem restoreVector_history (el : BackupElement) (e e1 : Editor)
    (h : el.restoreVector e = Except.ok e1) :
    e1.mBackupList = e.mBackupList ∧ e1.mBackupIndex = e.mBackupIndex := by
  unfold BackupElement.restoreVector at h
  split at h
  · cases h
  · injection h with h
    subst h
    exact ⟨rfl, rfl⟩

/-- Restoring an element changes neither the history list nor the cursor. -/
theorem restore_history (el : BackupElement) (e e1 : Editor)
    (h : el.restore e = Except.ok e1) :
    e1.mBackupList = e.mBackupList ∧ e1.mBackupIndex = e.mBackupIndex := by
  unfold BackupElement.restore at h
  split at h
  · exact restoreBitmap_history el e e1 h
  · exact restoreVector_history el e e1 h

theorem listAt_some_range {α : Type} (l : List α) (i : Int) (a : α)
    (h : listAt l i = some a) : 0 ≤ i ∧ i < (l.length : Int) := by
  unfold listAt at h
  split at h
  · rename_i h0
    have hlt : i.toNat < l.length := by
      by_contra hc
      rw [List.getElem?_eq_none (by omega)] at h
      cases h
    omega
  · cases h

/-- At the end of the history, `undoAtEnd` is one re-backup of the last element's
location followed by one decrement of the cursor. -/
theorem undoAtEnd_at_end (e : Editor) (last : BackupElement)
    (hend : e.mBackupIndex = (e.mBackupList.length : Int) - 1)
    (hlast : listAt e.mBackupList e.mBackupIndex = some last) :
    e.undoAtEnd = Except.ok
      { e.backup last.layer last.frame "NoOp" with
        mBackupIndex := (e.backup last.layer last.frame "NoOp").mBackupIndex - 1 } := by
  unfold Editor.undoAtEnd
  rw [if_pos hend, hlast]
  cases ht : last.type <;> simp [ht]

theorem undoAtEnd_not_at_end (e : Editor)
    (hend : e.mBackupIndex ≠ (e.mBackupList.length : Int) - 1) :
    e.undoAtEnd = Except.ok e := by
  unfold Editor.undoAtEnd
  rw [if_neg hend]

theorem backup_historyOk (e : Editor) (l f : Int) (t : String) (h : e.historyOk) :
    (e.backup l f t).historyOk := by
  have h1 := backup_length_le e l f t
  have h2 := backup_index_eq e l f t h.2.1 h.2.2
  refine ⟨h1, ?_, ?_⟩ <;> omega

theorem backupText_historyOk (e : Editor) (t : String) (h : e.historyOk) :
    (e.backupText t).historyOk := by
  unfold Editor.backupText
  simp only
  split
  · split
    · exact backup_historyOk _ _ _ _ (backup_historyOk _ _ _ _ h)
    · exact backup_historyOk _ _ _ _ h
  · split
    · exact backup_historyOk _ _ _ _ h
    · exact h

theorem undoAtEnd_bounds (e e1 : Editor) (h : e.historyOk) (h0 : e.mBackupIndex > -1)
    (hu : e.undoAtEnd = Except.ok e1) :
    e1.mBackupList.length ≤ 20 ∧ -2 ≤ e1.mBackupIndex ∧
      e1.mBackupIndex ≤ (e1.mBackupList.length : Int) - 1 := by
  by_cases hend : e.mBackupIndex = (e.mBackupList.length : Int) - 1
  · cases hl : listAt e.mBackupList e.mBackupIndex with
    | none =>
      unfold Editor.undoAtEnd at hu
      rw [if_pos hend, hl] at hu
      cases hu
    | some last =>
      rw [undoAtEnd_at_end e last hend hl] at hu
      injection hu with hu
      subst hu
      have h1 := backup_length_le e last.layer last.frame "NoOp"
      have h2 := backup_index_eq e last.layer last.frame "NoOp" h.2.1 h.2.2
      refine ⟨h1, ?_, ?_⟩ <;> simp only <;> omega
  · rw [undoAtEnd_not_at_end e hend] at hu
    injection hu with hu
    subst hu
    have := h.1
    have := h.2.2
    refine ⟨by omega, by omega, by omega⟩

theorem undo_historyOk (cv : Canvas) (e e1 : Editor) (h : e.historyOk)
    (hu : e.undo cv = Except.ok e1) : e1.historyOk := by
  unfold Editor.undo at hu
  split at hu
  · rename_i hg
    split at hu
    · cases hu
    · rename_i a ha
      have hb := undoAtEnd_bounds e a h hg.2 ha
      split at hu
      · cases hu
      · rename_i el hel
        have hr := listAt_some_range _ _ _ hel
        split at hu
        · cases hu
        · rename_i b hb2
          have hh := restore_history el a b hb2
          injection hu with hu
          subst hu
          refine ⟨?_, ?_, ?_⟩ <;> simp only [hh.1, hh.2] <;> omega
  · injection hu with hu
    subst hu
    exact h

theorem redo_historyOk (e e1 : Editor) (h : e.historyOk)
    (hr : e.redo = Except.ok e1) : e1.historyOk := by
  unfold Editor.redo at hr
  split at hr
  · rename_i hg
    simp only at hr
    split at hr
    · cases hr
    · rename_i el hel
      have hh := restore_history el _ e1 hr
      have := h.1
      have := h.2.1
      refine ⟨?_, ?_, ?_⟩ <;> simp only [hh.1, hh.2] <;> omega
  · injection hr with hr
    subst hr
    exact h

theorem clearUndoStack_list (e : Editor) : e.clearUndoStack.mBackupList = [] := by
  simp [Editor.clearUndoStack, clearLoop_eq_nil]

theorem clearUndoStack_historyOk (e : Editor) : e.clearUndoStack.historyOk := by
  refine ⟨?_, ?_, ?_⟩
  · rw [clearUndoStack_list]; simp
  · simp [Editor.clearUndoStack]
  · rw [clearUndoStack_list]; simp [Editor.clearUndoStack]

theorem call_historyOk (cv : Canvas) (e e1 : Editor) (c : Call) (h : e.historyOk)
    (hc : e.call cv c = Except.ok e1) : e1.historyOk := by
  cases c with
  | recordEdit l f t =>
    simp only [Editor.call] at hc
    injection hc with hc
    subst hc
    exact backup_historyOk e l f t h
  | recordEditText t =>
    simp only [Editor.call] at hc
    injection hc with hc
    subst hc
    exact backupText_historyOk e t h
  | undo => exact undo_historyOk cv e e1 h hc
  | redo => exact redo_historyOk e e1 h hc
  | clear =>
    simp only [Editor.call] at hc
    injection hc with hc
    subst hc
    exact clearUndoStack_historyOk e
  | edit o fr cl ml mf s =>
    simp only [Editor.call] at hc
    injection hc with hc
    subst hc
    exact h

theorem run_historyOk (cv : Canvas) (calls : List Call) (e e1 : Editor) (h : e.historyOk)
    (hr : e.run cv calls = Except.ok e1) : e1.historyOk := by
  induction calls generalizing e with
  | nil =>
    simp only [Editor.run] at hr
    injection hr with hr
    subst hr
    exact h
  | cons c cs ih =>
    simp only [Editor.run] at hr
    split at hr
    · cases hr
    · rename_i a ha
      exact ih a (call_historyOk cv e a c h ha) hr

theorem emptyHistory_historyOk (e : Editor) (h : e.emptyHistory) : e.historyOk := by
  unfold Editor.historyOk
  rw [h.1, h.2]
  simp

/-! ## Capacity and cursor invariants -/

set_option maxRecDepth 100000

/-- Claim C1: for every sequence of `recordEdit` (either form of `Editor::backup`),
`undo`, `redo` and `clear` calls, interleaved with arbitrary changes of the document
and of the rest of the editor state, that starts from the empty history, the history
list holds at most 20 entries after the sequence (hence after each of its calls). -/
theorem history_size_le_twenty (cv : Canvas) (e : Editor) (calls : List Call) (e1 : Editor)
    (hempty : e.emptyHistory) (hrun : e.run cv calls = Except.ok e1) :
    e1.mBackupList.length ≤ 20 :=
  (run_historyOk cv calls e e1 (emptyHistory_historyOk e hempty) hrun).1

/-- Twenty-one recordings on a recordable cell run without fault and fill the history
to its capacity of 20; `history_size_le_twenty` applies to the result. -/
theorem history_size_le_twenty_witness :
    Sample.editor.emptyHistory ∧
      Sample.editor.run Sample.canvas (List.replicate 21 (Call.recordEdit 0 1 "draw")) =
        Except.ok (Sample.withHistory (List.replicate 20 (Sample.entry 1 10 "draw")) 19) ∧
      (Sample.withHistory (List.replicate 20 (Sample.entry 1 10 "draw")) 19).mBackupList.length
        ≤ 20 :=
  ⟨⟨rfl, rfl⟩, rfl,
    history_size_le_twenty Sample.canvas Sample.editor
      (List.replicate 21 (Call.recordEdit 0 1 "draw")) _ ⟨rfl, rfl⟩ rfl⟩

/-- On every run that never leaves defined behaviour, started from the empty history
and interleaved with arbitrary changes of the document, the cursor satisfies
`-1 ≤ mBackupIndex ≤ size - 1` after the run. -/
theorem cursor_in_range (cv : Canvas) (e : Editor) (calls : List Call) (e1 : Editor)
    (hempty : e.emptyHistory) (hrun : e.run cv calls = Except.ok e1) :
    -1 ≤ e1.mBackupIndex ∧ e1.mBackupIndex ≤ (e1.mBackupList.length : Int) - 1 :=
  (run_historyOk cv calls e e1 (emptyHistory_historyOk e hempty) hrun).2

/-- Claim C2 at a failing input. One recording on the vector layer 2, then the
document loses that layer, then `undo()`: the guard passes (size 1, cursor 0), the
re-backup of the entry's location records nothing, the cursor is decremented to -1 all
the same, and `mBackupList[ -1 ]` is read. The call has no defined result; the
decrement that follows the read in the source would leave the cursor at -2. -/
theorem undo_after_layer_removed_reads_out_of_range :
    Sample.editor.run Sample.canvas
        [Call.recordEdit 2 1 "a", Sample.draw Sample.documentCut] =
      Except.ok Sample.layerGone ∧
    Sample.layerGone.mBackupList.length = 1 ∧ Sample.layerGone.mBackupIndex = 0 ∧
    Sample.layerGone.backup 2 1 "NoOp" = Sample.layerGone ∧
    Sample.layerGone.undoAtEnd = Except.ok { Sample.layerGone with mBackupIndex := -1 } ∧
    listAt Sample.layerGone.mBackupList (-1) = none ∧
    Sample.layerGone.undo Sample.canvas = Except.error Fault.indexOutOfRange ∧
    Sample.editor.run Sample.canvas
        [Call.recordEdit 2 1 "a", Sample.draw Sample.documentCut, Call.undo] =
      Except.error Fault.indexOutOfRange :=
  ⟨rfl, rfl, rfl, rfl, rfl, rfl, rfl, rfl⟩

/-! ## Recording on a recordable location -/

/-- On a BITMAP or VECTOR layer with image content at the frame, `backup` appends to
the trimmed history one element of the matching variant carrying the layer, frame,
label, current selection and the image found, and advances the cursor. -/
theorem backup_recordable (e : Editor) (l f : Int) (t : String) (lay : Layer) (img : Image)
    (hlay : e.mObject.getLayer l = some lay)
    (htype : lay.type = LayerType.BITMAP ∨ lay.type = LayerType.VECTOR)
    (himg : lay.getLastImageAtFrame f 0 = some img) :
    e.backup l f t =
      { e.backupTrim with
        mBackupList := e.backupTrim.mBackupList ++
          [e.newElement
            (if lay.type = LayerType.BITMAP then BackupType.BITMAP_MODIF
              else BackupType.VECTOR_MODIF) l f t img]
        mBackupIndex := e.backupTrim.mBackupIndex + 1 } := by
  have hobj : e.backupTrim.mObject = e.mObject := rfl
  unfold Editor.backup
  simp only [hobj, hlay]
  rcases htype with hb | hv
  · simp only [hb, if_true, himg]
    rfl
  · have hnb : lay.type ≠ LayerType.BITMAP := by rw [hv]; decide
    simp only [if_neg hnb, hv, if_true, himg]
    rfl

/-- Claim C3 (branch truncation): for every history with cursor `c`, `-1 ≤ c < size-1`
and `c+1 < 20`, `backup( layer, frame, label )` on a BITMAP or VECTOR layer that has
image content at the frame leaves the first `c+1` old entries followed by the one new
entry, with cursor `c+1`, and changes nothing else. -/
theorem backup_truncates_redo_branch (e : Editor) (l f : Int) (t : String) (lay : Layer)
    (img : Image) (hlo : -1 ≤ e.mBackupIndex)
    (hhi : e.mBackupIndex < (e.mBackupList.length : Int) - 1)
    (hcap : e.mBackupIndex + 1 < 20)
    (hlay : e.mObject.getLayer l = some lay)
    (htype : lay.type = LayerType.BITMAP ∨ lay.type = LayerType.VECTOR)
    (himg : lay.getLastImageAtFrame f 0 = some img) :
    e.backup l f t =
      { e with
        mBackupList := e.mBackupList.take (e.mBackupIndex + 1).toNat ++
          [e.newElement
            (if lay.type = LayerType.BITMAP then BackupType.BITMAP_MODIF
              else BackupType.VECTOR_MODIF) l f t img]
        mBackupIndex := e.mBackupIndex + 1 } := by
  rw [backup_recordable e l f t lay img hlay htype himg]
  have hlen : (e.mBackupList.take (e.mBackupIndex + 1).toNat).length - 19 = 0 := by
    rw [List.length_take]; omega
  have h1 : e.backupTrim.mBackupList = e.mBackupList.take (e.mBackupIndex + 1).toNat := by
    rw [backupTrim_list, hlen, List.drop_zero]
  have h2 : e.backupTrim.mBackupIndex = e.mBackupIndex := by
    rw [backupTrim_index, hlen]; simp
  rw [h1, h2]
  rfl

/-- The scenario of claim C3: history `[A, B, C]` with cursor 0, recording `D` on the
bitmap layer gives `[A, D]` with cursor 1. -/
theorem backup_truncates_redo_branch_witness :
    (Sample.withHistory
        [Sample.entry 1 1 "A", Sample.entry 1 2 "B", Sample.entry 1 3 "C"] 0).backup 0 1 "D" =
      Sample.withHistory [Sample.entry 1 1 "A", Sample.entry 1 10 "D"] 1 :=
  backup_truncates_redo_branch
    (Sample.withHistory [Sample.entry 1 1 "A", Sample.entry 1 2 "B", Sample.entry 1 3 "C"] 0)
    0 1 "D" ⟨LayerType.BITMAP, [(1, 10), (2, 20)]⟩ 10
    (by decide) (by decide) (by decide) rfl (Or.inl rfl) rfl

/-- Claim C4 (eviction at capacity): for every history of size 20 with cursor 19,
`backup` on a BITMAP or VECTOR layer with image content first evicts exactly the oldest
entry and decrements the cursor by one (the state after the two loops), then appends:
the result is old entries 1..19 followed by the new entry, with size 20 and cursor 19,
and every surviving entry sits one index lower, as the cursor did before the append. -/
theorem backup_evicts_oldest_at_capacity (e : Editor) (l f : Int) (t : String) (lay : Layer)
    (img : Image) (hsize : e.mBackupList.length = 20) (hidx : e.mBackupIndex = 19)
    (hlay : e.mObject.getLayer l = some lay)
    (htype : lay.type = LayerType.BITMAP ∨ lay.type = LayerType.VECTOR)
    (himg : lay.getLastImageAtFrame f 0 = some img) :
    e.backupTrim = { e with mBackupList := e.mBackupList.tail, mBackupIndex := 18 } ∧
      e.backup l f t =
        { e with
          mBackupList := e.mBackupList.tail ++
            [e.newElement
              (if lay.type = LayerType.BITMAP then BackupType.BITMAP_MODIF
                else BackupType.VECTOR_MODIF) l f t img]
          mBackupIndex := 19 } ∧
      (e.backup l f t).mBackupList.length = 20 ∧
      ∀ i : Nat, i < 19 → (e.backup l f t).mBackupList[i]? = e.mBackupList[i + 1]? := by
  have htake : e.mBackupList.take (e.mBackupIndex + 1).toNat = e.mBackupList := by
    rw [List.take_of_length_le]; omega
  have h1 : e.backupTrim.mBackupList = e.mBackupList.tail := by
    rw [backupTrim_list, htake, hsize, ← List.drop_one]
  have h2 : e.backupTrim.mBackupIndex = 18 := by
    rw [backupTrim_index, htake, hsize, hidx]; rfl
  have htrim : e.backupTrim =
      { e with mBackupList := e.mBackupList.tail, mBackupIndex := 18 } := by
    rw [← h1, ← h2]; rfl
  have hb := backup_recordable e l f t lay img hlay htype himg
  rw [h1, h2] at hb
  refine ⟨htrim, ?_, ?_, ?_⟩
  · rw [hb]; rfl
  · rw [hb]; simp [hsize]
  · intro i hi
    rw [hb]
    simp only
    rw [List.getElem?_append_left (by rw [List.length_tail]; omega), ← List.drop_one,
      List.getElem?_drop, Nat.add_comm]

/-- A full history of 20 entries labelled 0..19 with cursor 19: recording on the bitmap
layer drops entry 0 and appends the new entry. -/
theorem backup_evicts_oldest_at_capacity_witness :
    (Sample.withHistory ((List.range 20).map (fun i => Sample.entry 1 i "e")) 19).backup
        0 1 "new" =
      Sample.withHistory
        (((List.range 20).map (fun i => Sample.entry 1 i "e")).tail ++
          [Sample.entry 1 10 "new"]) 19 :=
  (backup_evicts_oldest_at_capacity
    (Sample.withHistory ((List.range 20).map (fun i => Sample.entry 1 i "e")) 19)
    0 1 "new" ⟨LayerType.BITMAP, [(1, 10), (2, 20)]⟩ 10 rfl rfl rfl (Or.inl rfl) rfl).2.1



/-! ## Key frames: reading after assigning -/

/-- The position found by `lastKeyPosition` is a key position at or before `pos` and
no key position at or before `pos` is greater; nothing is found exactly when every key
lies after `pos`. -/
theorem lastKeyPosition_greatest (keys : List (Int × Image)) (pos : Int) :
    match lastKeyPosition keys pos with
    | none => ∀ k ∈ keys, pos < k.1
    | some p => p ≤ pos ∧ (∃ k ∈ keys, k.1 = p) ∧ ∀ k ∈ keys, k.1 ≤ pos → k.1 ≤ p := by
  induction keys with
  | nil => simp [lastKeyPosition]
  | cons k rest ih =>
    simp only [lastKeyPosition]
    cases hrest : lastKeyPosition rest pos with
    | none =>
      rw [hrest] at ih
      simp only at ih ⊢
      by_cases hk : k.1 ≤ pos
      · rw [if_pos hk]
        refine ⟨hk, ⟨k, List.mem_cons_self _ _, rfl⟩, ?_⟩
        intro k1 hk1 hle
        rcases List.mem_cons.mp hk1 with h | h
        · rw [h]
        · have := ih k1 h; omega
      · rw [if_neg hk]
        intro k1 hk1
        rcases List.mem_cons.mp hk1 with h | h
        · subst h; omega
        · exact ih k1 h
    | some q =>
      rw [hrest] at ih
      simp only at ih ⊢
      obtain ⟨hq, ⟨kq, hkq, hkq1⟩, hmax⟩ := ih
      by_cases hk : k.1 ≤ pos ∧ q < k.1
      · rw [if_pos hk]
        refine ⟨hk.1, ⟨k, List.mem_cons_self _ _, rfl⟩, ?_⟩
        intro k1 hk1 hle
        rcases List.mem_cons.mp hk1 with h | h
        · rw [h]
        · have := hmax k1 h hle; omega
      · rw [if_neg hk]
        refine ⟨hq, ⟨kq, List.mem_cons_of_mem _ hkq, hkq1⟩, ?_⟩
        intro k1 hk1 hle
        rcases List.mem_cons.mp hk1 with h | h
        · subst h; omega
        · exact hmax k1 h hle

theorem assignKey_cons (k : Int × Image) (rest : List (Int × Image)) (p : Int) (img : Image) :
    assignKey (k :: rest) p img =
      (if k.1 = p then (k.1, img) else k) :: assignKey rest p img := rfl

theorem lastKeyPosition_assignKey (keys : List (Int × Image)) (p : Int) (img : Image)
    (pos : Int) : lastKeyPosition (assignKey keys p img) pos = lastKeyPosition keys pos := by
  induction keys with
  | nil => rfl
  | cons k rest ih =>
    rw [assignKey_cons]
    have hfst : (if k.1 = p then (k.1, img) else k).1 = k.1 := by
      split <;> rfl
    simp only [lastKeyPosition, ih, hfst]

theorem lastKeyPosition_isKey (keys : List (Int × Image)) (pos p : Int)
    (h : lastKeyPosition keys pos = some p) : (keys.lookup p).isSome = true := by
  induction keys generalizing p with
  | nil => simp [lastKeyPosition] at h
  | cons k rest ih =>
    obtain ⟨kp, ki⟩ := k
    simp only [lastKeyPosition] at h
    simp only [List.lookup_cons]
    by_cases hk : p = kp
    · simp [hk]
    · have hne : (p == kp) = false := by simpa using hk
      rw [hne]
      simp only
      split at h
      · split at h
        · injection h with h; exact absurd h.symm hk
        · cases h
      · rename_i q hq
        split at h
        · injection h with h; exact absurd h.symm hk
        · injection h with h
          subst h
          exact ih q hq

theorem lookup_assignKey (keys : List (Int × Image)) (p : Int) (img : Image)
    (h : (keys.lookup p).isSome = true) : (assignKey keys p img).lookup p = some img := by
  induction keys with
  | nil => simp at h
  | cons k rest ih =>
    obtain ⟨kp, ki⟩ := k
    rw [assignKey_cons]
    simp only [List.lookup_cons] at h
    by_cases hk : p = kp
    · subst hk
      simp [List.lookup_cons]
    · have hne : (p == kp) = false := by simpa using hk
      rw [hne] at h
      have hne2 : ¬ kp = p := fun hc => hk hc.symm
      simp only [if_neg hne2, List.lookup_cons, hne]
      exact ih h

/-- Reading a key frame right after assigning through the same frame number gives the
assigned content. -/
theorem getLast_assignLast (l l1 : Layer) (f i : Int) (img : Image)
    (h : l.assignLastImageAtFrame f i img = some l1) :
    l1.getLastImageAtFrame f i = some img ∧ l1.type = l.type := by
  unfold Layer.assignLastImageAtFrame at h
  split at h
  · cases h
  · rename_i p hp
    injection h with h
    subst h
    refine ⟨?_, rfl⟩
    unfold Layer.getLastImageAtFrame
    simp only [lastKeyPosition_assignKey, hp]
    exact lookup_assignKey _ _ _ (lastKeyPosition_isKey _ _ _ hp)

theorem getLast_isSome (l : Layer) (f i : Int) :
    (l.getLastImageAtFrame f i).isSome = (lastKeyPosition l.keys (f + i)).isSome := by
  unfold Layer.getLastImageAtFrame
  split
  · rename_i h; rw [h]; rfl
  · rename_i p hp
    rw [hp, lastKeyPosition_isKey _ _ _ hp]
    rfl

/-- Assigning through one frame number keeps, for every frame number, whether the
layer has content there. -/
theorem getLast_isSome_assignLast (l l1 : Layer) (f i : Int) (img : Image) (g j : Int)
    (h : l.assignLastImageAtFrame f i img = some l1) :
    (l1.getLastImageAtFrame g j).isSome = (l.getLastImageAtFrame g j).isSome := by
  unfold Layer.assignLastImageAtFrame at h
  split at h
  · cases h
  · injection h with h
    subst h
    rw [getLast_isSome, getLast_isSome]
    simp only [lastKeyPosition_assignKey]

theorem assignLast_isSome (l : Layer) (f i : Int) (img : Image) :
    (l.assignLastImageAtFrame f i img).isSome = (l.getLastImageAtFrame f i).isSome := by
  rw [getLast_isSome]
  unfold Layer.assignLastImageAtFrame
  split
  · rename_i h; rw [h]; rfl
  · rename_i p hp; rw [hp]; rfl

theorem getLayer_isSome_range (o : Object) (i : Int) (lay : Layer)
    (h : o.getLayer i = some lay) : 0 ≤ i ∧ i.toNat < o.layers.length := by
  have := listAt_some_range o.layers i lay h
  omega

theorem getLayer_setLayer_same (o : Object) (i : Int) (lay lay1 : Layer)
    (h : o.getLayer i = some lay) : (o.setLayer i lay1).getLayer i = some lay1 := by
  have hr := getLayer_isSome_range o i lay h
  unfold Object.setLayer Object.getLayer
  simp only [if_pos hr.1]
  rw [List.getElem?_set]
  simp [hr.2]

theorem getLayer_setLayer_other (o : Object) (i j : Int) (lay1 : Layer) (hij : i ≠ j) :
    (o.setLayer i lay1).getLayer j = o.getLayer j := by
  unfold Object.setLayer
  split
  · unfold Object.getLayer
    split
    · rw [List.getElem?_set]
      have : ¬ i.toNat = j.toNat := by omega
      simp [this]
    · rfl
  · rfl

/-! ## Effect of `restore` on the document -/

theorem restoreImage_noLayer (el : BackupElement) (want : LayerType) (o : Object)
    (h : o.getLayer el.layer = none) : el.restoreImage want o = Except.ok o := by
  unfold BackupElement.restoreImage
  rw [h]

theorem restoreImage_mismatch (el : BackupElement) (want : LayerType) (o : Object)
    (lay : Layer) (h : o.getLayer el.layer = some lay) (ht : lay.type ≠ want) :
    el.restoreImage want o = Except.ok o := by
  unfold BackupElement.restoreImage
  rw [h]
  simp only [if_neg ht]

theorem restoreImage_match (el : BackupElement) (want : LayerType) (o : Object)
    (lay lay1 : Layer) (h : o.getLayer el.layer = some lay) (ht : lay.type = want)
    (ha : lay.assignLastImageAtFrame el.frame 0 el.image = some lay1) :
    el.restoreImage want o = Except.ok (o.setLayer el.layer lay1) := by
  unfold BackupElement.restoreImage
  rw [h]
  simp only [if_pos ht, ha]

/-- The method `restore` is the image assignment of `restoreImage` on the layer type of
the element's variant, then the selection copy and `scrubTo`. -/
theorem restore_eq (el : BackupElement) (e : Editor) :
    el.restore e =
      match el.restoreImage el.type.layerType e.mObject with
      | Except.error f => Except.error f
      | Except.ok o =>
        Except.ok
          (Editor.scrubTo { e with mObject := o, mScribbleArea := el.selection } el.frame) := by
  unfold BackupElement.restore
  cases ht : el.type <;> rfl

/-- Writing an assigned layer back keeps every layer's type and, for every cell,
whether it has image content. -/
theorem setLayer_assign_preserves (o : Object) (i : Int) (lay lay1 : Layer) (f : Int)
    (img : Image) (hget : o.getLayer i = some lay)
    (hassign : lay.assignLastImageAtFrame f 0 img = some lay1) (l g : Int) :
    ((o.setLayer i lay1).getLayer l).map Layer.type = (o.getLayer l).map Layer.type ∧
      ((o.setLayer i lay1).imageAt l g).isSome = (o.imageAt l g).isSome := by
  by_cases hl : i = l
  · subst hl
    have hs := getLayer_setLayer_same o i lay lay1 hget
    have ht := (getLast_assignLast lay lay1 f 0 img hassign).2
    have hi := getLast_isSome_assignLast lay lay1 f 0 img g 0 hassign
    unfold Object.imageAt
    rw [hs, hget]
    simp [ht, hi]
  · have hs := getLayer_setLayer_other o i l lay1 hl
    unfold Object.imageAt
    rw [hs]
    simp

/-- Where the cell of the element has image content, `restoreImage` returns; the
result keeps layer types and which cells have content, holds the element's image at
its cell when the layer has the wanted type, and is the old document otherwise. -/
theorem restoreImage_ok (el : BackupElement) (want : LayerType) (o : Object)
    (hsome : (o.imageAt el.layer el.frame).isSome = true) :
    ∃ o1, el.restoreImage want o = Except.ok o1 ∧
      (∀ l g, ((o1.getLayer l).map Layer.type = (o.getLayer l).map Layer.type) ∧
        (o1.imageAt l g).isSome = (o.imageAt l g).isSome) ∧
      ((o.getLayer el.layer).map Layer.type = some want →
        o1.imageAt el.layer el.frame = some el.image) ∧
      ((o.getLayer el.layer).map Layer.type ≠ some want → o1 = o) := by
  cases hget : o.getLayer el.layer with
  | none =>
    unfold Object.imageAt at hsome
    rw [hget] at hsome
    simp at hsome
  | some lay =>
    have hs : (lay.getLastImageAtFrame el.frame 0).isSome = true := by
      unfold Object.imageAt at hsome
      rw [hget] at hsome
      exact hsome
    by_cases ht : lay.type = want
    · have ha : (lay.assignLastImageAtFrame el.frame 0 el.image).isSome = true := by
        rw [assignLast_isSome]; exact hs
      obtain ⟨lay1, hlay1⟩ := Option.isSome_iff_exists.mp ha
      refine ⟨o.setLayer el.layer lay1, restoreImage_match el want o lay lay1 hget ht hlay1,
        fun l g => setLayer_assign_preserves o el.layer lay lay1 el.frame el.image hget hlay1 l g,
        ?_, ?_⟩
      · intro _
        unfold Object.imageAt
        rw [getLayer_setLayer_same o el.layer lay lay1 hget]
        exact (getLast_assignLast lay lay1 el.frame 0 el.image hlay1).1
      · intro hne
        exact absurd (by simp [ht]) hne
    · refine ⟨o, restoreImage_mismatch el want o lay hget ht, fun l g => ⟨rfl, rfl⟩, ?_, ?_⟩
      · intro hc
        simp only [Option.map_some', Option.some.injEq] at hc
        exact absurd hc ht
      · intro _; rfl

/-! ## `undo` and `redo` away from the special cases -/

theorem undo_eq_of_not_at_end (cv : Canvas) (e : Editor) (a : BackupElement) (o1 : Object)
    (hne : e.mBackupIndex ≠ (e.mBackupList.length : Int) - 1)
    (ha : listAt e.mBackupList e.mBackupIndex = some a)
    (hr : a.restoreImage a.type.layerType e.mObject = Except.ok o1) :
    ∃ e1, e.undo cv = Except.ok e1 ∧ e1.mObject = o1 ∧ e1.mBackupList = e.mBackupList ∧
      e1.mBackupIndex = e.mBackupIndex - 1 := by
  have hrange := listAt_some_range _ _ _ ha
  have hg : (e.mBackupList.length : Int) > 0 ∧ e.mBackupIndex > -1 := by omega
  unfold Editor.undo
  rw [if_pos hg, undoAtEnd_not_at_end e hne]
  simp only [ha, restore_eq, hr]
  exact ⟨_, rfl, rfl, rfl, rfl⟩

theorem redo_eq_of_guard (e : Editor) (b : BackupElement) (o2 : Object)
    (hg : (e.mBackupList.length : Int) > 0 ∧
      e.mBackupIndex < (e.mBackupList.length : Int) - 2)
    (hb : listAt e.mBackupList (e.mBackupIndex + 1 + 1) = some b)
    (hr : b.restoreImage b.type.layerType e.mObject = Except.ok o2) :
    ∃ e2, e.redo = Except.ok e2 ∧ e2.mObject = o2 ∧ e2.mBackupList = e.mBackupList ∧
      e2.mBackupIndex = e.mBackupIndex + 1 := by
  unfold Editor.redo
  rw [if_pos hg]
  simp only [hb, restore_eq, hr]
  exact ⟨_, rfl, rfl, rfl, rfl⟩

/-! ## Undo followed by redo -/

/-- Claim C5, as stated, fails. Frame 1 is drawn (snapshot `a`), then frame 2
(snapshot `b`), then one undo: the history is `[a, b, NoOp]` with cursor 0, so
`0 ≤ cursor < size-1`, and the entry at the cursor targets frame 1 of layer 0.
After `undo()` and `redo()` that frame holds 10, not the 11 it held before: the redo
restored `b` into frame 2. -/
theorem undo_redo_round_trip_counterexample :
    Sample.editor.run Sample.canvas
        [Call.recordEdit 0 1 "a", Sample.draw (Sample.document 11 20),
          Call.recordEdit 0 2 "b", Sample.draw (Sample.document 11 21), Call.undo] =
      Except.ok Sample.twoFrames ∧
    (0 ≤ Sample.twoFrames.mBackupIndex ∧
      Sample.twoFrames.mBackupIndex < (Sample.twoFrames.mBackupList.length : Int) - 1) ∧
    listAt Sample.twoFrames.mBackupList Sample.twoFrames.mBackupIndex =
      some (Sample.entry 1 10 "a") ∧
    Sample.twoFrames.run Sample.canvas [Call.undo, Call.redo] =
      Except.ok Sample.twoFramesAfter ∧
    Sample.twoFramesAfter.mObject.imageAt 0 1 ≠ Sample.twoFrames.mObject.imageAt 0 1 :=
  ⟨rfl, by decide, rfl, rfl, by decide⟩

/-- Claim C5, amended: for every history and document with `0 ≤ cursor < size-1` in
which the entry after the cursor is of the same variant and targets the same layer and
frame as the entry at the cursor, and holds the present content of that frame (the
situation an undo on that frame leaves behind), `undo()` followed by `redo()` both
return and leave the frame targeted by the undone entry with the content it had
before the `undo()`; the cursor is back where it was. -/
theorem undo_redo_round_trip (cv : Canvas) (e : Editor) (a b : BackupElement)
    (h0 : 0 ≤ e.mBackupIndex) (h1 : e.mBackupIndex < (e.mBackupList.length : Int) - 1)
    (ha : listAt e.mBackupList e.mBackupIndex = some a)
    (hb : listAt e.mBackupList (e.mBackupIndex + 1) = some b)
    (hlayer : b.layer = a.layer) (hframe : b.frame = a.frame) (htype : b.type = a.type)
    (hcur : e.mObject.imageAt a.layer a.frame = some b.image) :
    ∃ e1 e2, e.undo cv = Except.ok e1 ∧ e1.redo = Except.ok e2 ∧
      e2.mObject.imageAt a.layer a.frame = e.mObject.imageAt a.layer a.frame ∧
      e2.mBackupIndex = e.mBackupIndex ∧ e2.mBackupList = e.mBackupList := by
  have hsome : (e.mObject.imageAt a.layer a.frame).isSome = true := by rw [hcur]; rfl
  obtain ⟨o1, hr1, hpres1, hmatch1, hmis1⟩ := restoreImage_ok a a.type.layerType e.mObject hsome
  obtain ⟨e1, hu, hobj1, hl1, hi1⟩ :=
    undo_eq_of_not_at_end cv e a o1 (by omega) ha hr1
  have hsome1 : (e1.mObject.imageAt b.layer b.frame).isSome = true := by
    rw [hobj1, hlayer, hframe, (hpres1 a.layer a.frame).2]; exact hsome
  obtain ⟨o2, hr2, hpres2, hmatch2, hmis2⟩ :=
    restoreImage_ok b b.type.layerType e1.mObject hsome1
  have hb1 : listAt e1.mBackupList (e1.mBackupIndex + 1 + 1) = some b := by
    rw [hl1, hi1]
    have : e.mBackupIndex - 1 + 1 + 1 = e.mBackupIndex + 1 := by omega
    rw [this]; exact hb
  obtain ⟨e2, hre, hobj2, hl2, hi2⟩ :=
    redo_eq_of_guard e1 b o2 (by rw [hl1, hi1]; omega) hb1 hr2
  refine ⟨e1, e2, hu, hre, ?_, by rw [hi2, hi1]; omega, by rw [hl2, hl1]⟩
  rw [hobj2]
  by_cases hm : (e.mObject.getLayer a.layer).map Layer.type = some a.type.layerType
  · have hm1 : (e1.mObject.getLayer b.layer).map Layer.type = some b.type.layerType := by
      rw [hobj1, hlayer, htype, (hpres1 a.layer a.frame).1]; exact hm
    have := hmatch2 hm1
    rw [hlayer, hframe] at this
    rw [this, hcur]
  · have ho1 : o1 = e.mObject := hmis1 hm
    have hm1 : (e1.mObject.getLayer b.layer).map Layer.type ≠ some b.type.layerType := by
      rw [hobj1, hlayer, htype, ho1]; exact hm
    rw [hmis2 hm1, hobj1, ho1]

/-- Frame 1 is drawn twice and the second drawing undone: the history is
`[a, b, NoOp]` with cursor 0, `b` targets frame 1 as `a` does and holds its present
content 11, and `undo_redo_round_trip` applies. -/
theorem undo_redo_round_trip_witness :
    ∃ e1 e2,
      Editor.undo Sample.canvas
          { Sample.withHistory
              [Sample.entry 1 10 "a", Sample.entry 1 11 "b", Sample.entry 1 12 "NoOp"] 0 with
            mObject := Sample.document 11 20 } = Except.ok e1 ∧
        e1.redo = Except.ok e2 ∧
        e2.mObject.imageAt 0 1 = (Sample.document 11 20).imageAt 0 1 ∧
        e2.mBackupIndex = 0 ∧
        e2.mBackupList =
          [Sample.entry 1 10 "a", Sample.entry 1 11 "b", Sample.entry 1 12 "NoOp"] :=
  undo_redo_round_trip Sample.canvas
    { Sample.withHistory
        [Sample.entry 1 10 "a", Sample.entry 1 11 "b", Sample.entry 1 12 "NoOp"] 0 with
      mObject := Sample.document 11 20 }
    (Sample.entry 1 10 "a") (Sample.entry 1 11 "b")
    (by decide) (by decide) rfl rfl rfl rfl rfl rfl

/-! ## Undo with restorable targets -/

theorem restorable_iff (el : BackupElement) (o : Object) :
    el.restorable o ↔
      (o.getLayer el.layer).map Layer.type = some el.type.layerType ∧
        (o.imageAt el.layer el.frame).isSome = true := by
  unfold BackupElement.restorable Object.imageAt
  constructor
  · rintro ⟨lay, h1, h2, h3⟩
    rw [h1]
    exact ⟨by simp [h2], h3⟩
  · rintro ⟨h1, h2⟩
    cases hget : o.getLayer el.layer with
    | none => rw [hget] at h1; simp at h1
    | some lay =>
      rw [hget] at h1 h2
      exact ⟨lay, rfl, by simpa using h1, h2⟩

theorem restorable_of_sameShape (el : BackupElement) (o o1 : Object) (hs : o.sameShape o1)
    (h : el.restorable o) : el.restorable o1 := by
  rw [restorable_iff] at h ⊢
  rw [(hs el.layer el.frame).1, (hs el.layer el.frame).2]
  exact h

theorem backupType_of_layerType (t : BackupType) :
    (if t.layerType = LayerType.BITMAP then BackupType.BITMAP_MODIF
      else BackupType.VECTOR_MODIF) = t := by
  cases t <;> rfl

/-- Restoring a restorable element returns; the document keeps its shape and holds
the element's image at the element's cell. -/
theorem restoreImage_restorable (el : BackupElement) (o : Object) (h : el.restorable o) :
    ∃ o1, el.restoreImage el.type.layerType o = Except.ok o1 ∧ o.sameShape o1 ∧
      o1.imageAt el.layer el.frame = some el.image := by
  have h2 := (restorable_iff el o).mp h
  obtain ⟨o1, hr, hpres, hmatch, _⟩ := restoreImage_ok el el.type.layerType o h2.2
  exact ⟨o1, hr, hpres, hmatch h2.1⟩

/-- An undo strictly inside the history whose entry is restorable restores that entry
and moves the cursor down by one; the history list is unchanged. -/
theorem undo_inside_restorable (cv : Canvas) (e : Editor) (a : BackupElement)
    (hne : e.mBackupIndex ≠ (e.mBackupList.length : Int) - 1)
    (ha : listAt e.mBackupList e.mBackupIndex = some a) (hr : a.restorable e.mObject) :
    ∃ e1, e.undo cv = Except.ok e1 ∧ e1.mBackupList = e.mBackupList ∧
      e1.mBackupIndex = e.mBackupIndex - 1 ∧ e.mObject.sameShape e1.mObject ∧
      e1.mObject.imageAt a.layer a.frame = some a.image := by
  obtain ⟨o1, hr1, hshape, himg⟩ := restoreImage_restorable a e.mObject hr
  obtain ⟨e1, hu, hobj, hl, hi⟩ := undo_eq_of_not_at_end cv e a o1 hne ha hr1
  exact ⟨e1, hu, hl, hi, by rw [hobj]; exact hshape, by rw [hobj]; exact himg⟩

/-- An undo at the end of a history below capacity whose last entry is restorable:
the location of the last entry is recorded again under the label `NoOp` with its
present content, the last entry is restored, and the cursor moves from `size-1` to
`size-2`. -/
theorem undo_at_end_restorable (cv : Canvas) (e : Editor) (last : BackupElement)
    (hend : e.mBackupIndex = (e.mBackupList.length : Int) - 1)
    (hcap : e.mBackupList.length < 20)
    (hlast : listAt e.mBackupList e.mBackupIndex = some last)
    (hr : last.restorable e.mObject) :
    ∃ e1 img, e.mObject.imageAt last.layer last.frame = some img ∧
      e.undo cv = Except.ok e1 ∧
      e1.mBackupList = e.mBackupList ++
        [e.newElement last.type last.layer last.frame "NoOp" img] ∧
      e1.mBackupIndex = e.mBackupIndex - 1 ∧ e.mObject.sameShape e1.mObject ∧
      e1.mObject.imageAt last.layer last.frame = some last.image := by
  obtain ⟨lay, hlay, htype, hsome⟩ := hr
  obtain ⟨img, himg⟩ := Option.isSome_iff_exists.mp hsome
  have hrange := listAt_some_range _ _ _ hlast
  have hb := backup_recordable e last.layer last.frame "NoOp" lay img hlay
    (by rw [htype]; cases last.type <;> simp [BackupType.layerType]) himg
  rw [htype, backupType_of_layerType] at hb
  have htake : e.mBackupList.take (e.mBackupIndex + 1).toNat = e.mBackupList := by
    rw [List.take_of_length_le]; omega
  have hlen0 : e.mBackupList.length - 19 = 0 := by omega
  have h1 : e.backupTrim.mBackupList = e.mBackupList := by
    rw [backupTrim_list, htake, hlen0, List.drop_zero]
  have h2 : e.backupTrim.mBackupIndex = e.mBackupIndex := by
    rw [backupTrim_index, htake, hlen0]; simp
  rw [h1, h2] at hb
  have hobj : (e.backup last.layer last.frame "NoOp").mObject = e.mObject := by rw [hb]; rfl
  obtain ⟨o1, hr1, hshape, himg1⟩ :=
    restoreImage_restorable last e.mObject ⟨lay, hlay, htype, hsome⟩
  have hat : listAt
      (e.mBackupList ++ [e.newElement last.type last.layer last.frame "NoOp" img])
      (e.mBackupIndex + 1 - 1) = some last := by
    have hi : e.mBackupIndex + 1 - 1 = e.mBackupIndex := by omega
    rw [hi]
    unfold listAt at hlast ⊢
    rw [if_pos hrange.1] at hlast ⊢
    rw [List.getElem?_append_left (by omega)]
    exact hlast
  have hg : (e.mBackupList.length : Int) > 0 ∧ e.mBackupIndex > -1 := by omega
  have hu : ∃ e1, e.undo cv = Except.ok e1 ∧
      e1.mBackupList = e.mBackupList ++
        [e.newElement last.type last.layer last.frame "NoOp" img] ∧
      e1.mBackupIndex = e.mBackupIndex + 1 - 1 - 1 ∧ e1.mObject = o1 := by
    unfold Editor.undo
    have hto : e.backupTrim.mObject = e.mObject := rfl
    rw [if_pos hg, undoAtEnd_at_end e last hend hlast, hb]
    simp only [hat, restore_eq, hto, hr1]
    exact ⟨_, rfl, rfl, rfl, rfl⟩
  obtain ⟨e1, hu1, hl1, hi1, ho1⟩ := hu
  refine ⟨e1, img, ?_, hu1, hl1, by rw [hi1]; omega, by rw [ho1]; exact hshape,
    by rw [ho1]; exact himg1⟩
  unfold Object.imageAt
  rw [hlay]
  exact himg

/-! ## The scenario of two undos from `[X, Y, Z]` -/

/-- Claim C6, as stated, fails. From `[X, Y, Z]` with cursor 2 on a recordable frame,
the first `undo()` restores `Z` (the frame holds 3, the image of `Z`, not 2, the image
of `Y`), and the second `undo()` restores `Y` and leaves the cursor at 0, not -1; the
frame then holds 2, not the image 1 of `X`. -/
theorem undo_twice_scenario_counterexample :
    Sample.xyz.mBackupList = [Sample.entry 1 1 "X", Sample.entry 1 2 "Y", Sample.entry 1 3 "Z"] ∧
    Sample.xyz.mBackupIndex = 2 ∧
    Sample.xyz.run Sample.canvas [Call.undo] = Except.ok Sample.xyzOnce ∧
    Sample.xyzOnce.mObject.imageAt 0 1 = some (Sample.entry 1 3 "Z").image ∧
    Sample.xyzOnce.mObject.imageAt 0 1 ≠ some (Sample.entry 1 2 "Y").image ∧
    Sample.xyz.run Sample.canvas [Call.undo, Call.undo] = Except.ok Sample.xyzTwice ∧
    Sample.xyzTwice.mBackupIndex ≠ -1 ∧
    Sample.xyzTwice.mObject.imageAt 0 1 ≠ some (Sample.entry 1 1 "X").image :=
  ⟨rfl, rfl, rfl, rfl, by decide, rfl, by decide, by decide⟩

/-- Claim C6, amended: from a history `[X, Y, Z]` with cursor 2 whose entries are
restorable, the first `undo()` appends one snapshot labelled `NoOp` of the location of
`Z`, restores entry 2 (`Z`) and leaves the cursor at 1; the second `undo()` restores
entry 1 (`Y`) and leaves the cursor at 0; the history size is 4 afterwards. -/
theorem undo_twice_scenario (cv : Canvas) (e : Editor) (X Y Z : BackupElement)
    (hlist : e.mBackupList = [X, Y, Z]) (hidx : e.mBackupIndex = 2)
    (hrec : ∀ el ∈ e.mBackupList, el.restorable e.mObject) :
    ∃ e1 e2 N, e.undo cv = Except.ok e1 ∧ e1.mBackupList = [X, Y, Z, N] ∧
      N.undoText = "NoOp" ∧ N.layer = Z.layer ∧ N.frame = Z.frame ∧
      some N.image = e.mObject.imageAt Z.layer Z.frame ∧
      e1.mBackupIndex = 1 ∧ e1.mObject.imageAt Z.layer Z.frame = some Z.image ∧
      e1.undo cv = Except.ok e2 ∧ e2.mBackupIndex = 0 ∧
      e2.mObject.imageAt Y.layer Y.frame = some Y.image ∧
      e2.mBackupList = [X, Y, Z, N] ∧ e2.mBackupList.length = 4 := by
  have hZ : Z.restorable e.mObject := hrec Z (by rw [hlist]; simp)
  have hY : Y.restorable e.mObject := hrec Y (by rw [hlist]; simp)
  have hlast : listAt e.mBackupList e.mBackupIndex = some Z := by rw [hlist, hidx]; rfl
  obtain ⟨e1, img, himg, hu1, hl1, hi1, hshape1, hc1⟩ :=
    undo_at_end_restorable cv e Z (by rw [hlist, hidx]; rfl) (by rw [hlist]; simp) hlast hZ
  rw [hlist] at hl1
  rw [hidx] at hi1
  have hat : listAt e1.mBackupList e1.mBackupIndex = some Y := by rw [hl1, hi1]; rfl
  obtain ⟨e2, hu2, hl2, hi2, _, hc2⟩ :=
    undo_inside_restorable cv e1 Y (by rw [hl1, hi1]; simp) hat
      (restorable_of_sameShape Y _ _ hshape1 hY)
  refine ⟨e1, e2, _, hu1, hl1, rfl, rfl, rfl, himg.symm, by rw [hi1]; rfl, hc1, hu2,
    by rw [hi2, hi1]; rfl, hc2, by rw [hl2, hl1]; rfl, by rw [hl2, hl1]; rfl⟩

/-- The theorem `undo_twice_scenario` at the sample history `[X, Y, Z]` on frame 1 of
the bitmap layer. -/
theorem undo_twice_scenario_witness :
    ∃ e1 e2 N, Sample.xyz.undo Sample.canvas = Except.ok e1 ∧
      e1.mBackupList =
        [Sample.entry 1 1 "X", Sample.entry 1 2 "Y", Sample.entry 1 3 "Z", N] ∧
      N.undoText = "NoOp" ∧ N.layer = 0 ∧ N.frame = 1 ∧
      some N.image = Sample.xyz.mObject.imageAt 0 1 ∧
      e1.mBackupIndex = 1 ∧ e1.mObject.imageAt 0 1 = some 3 ∧
      e1.undo Sample.canvas = Except.ok e2 ∧ e2.mBackupIndex = 0 ∧
      e2.mObject.imageAt 0 1 = some 2 ∧
      e2.mBackupList =
        [Sample.entry 1 1 "X", Sample.entry 1 2 "Y", Sample.entry 1 3 "Z", N] ∧
      e2.mBackupList.length = 4 :=
  undo_twice_scenario Sample.canvas Sample.xyz
    (Sample.entry 1 1 "X") (Sample.entry 1 2 "Y") (Sample.entry 1 3 "Z") rfl rfl
    (by
      intro el hel
      refine ⟨⟨LayerType.BITMAP, [(1, 10), (2, 20)]⟩, ?_, ?_, ?_⟩ <;>
        (simp only [Sample.xyz, Sample.withHistory, List.mem_cons, List.mem_singleton,
          List.not_mem_nil, or_false] at hel
         rcases hel with h | h | h <;> subst h <;> rfl))

/-! ## Which entry `redo` restores -/

/-- Claim C7, as stated, fails. After two recordings on frame 1, two undos and one
redo the history is `[a, b, NoOp]` with cursor 0; the last entry, at index `size-1`,
is the `NoOp` snapshot, and `redo()` is exactly the restore of that entry with the
cursor moved to 1: the frame then holds its image 12. -/
theorem redo_never_last_counterexample :
    Sample.editor.run Sample.canvas
        [Call.recordEdit 0 1 "a", Sample.draw (Sample.document 11 20),
          Call.recordEdit 0 1 "b", Sample.draw (Sample.document 12 20),
          Call.undo, Call.undo, Call.redo] = Except.ok Sample.oneOfThree ∧
    listAt Sample.oneOfThree.mBackupList
        ((Sample.oneOfThree.mBackupList.length : Int) - 1) =
      some (Sample.entry 1 12 "NoOp") ∧
    Sample.oneOfThree.redo =
      (Sample.entry 1 12 "NoOp").restore { Sample.oneOfThree with mBackupIndex := 1 } ∧
    Sample.oneOfThree.redo =
      Except.ok { Sample.oneOfThree with mBackupIndex := 1, mObject := Sample.document 12 20 } ∧
    (Sample.document 12 20).imageAt 0 1 = some (Sample.entry 1 12 "NoOp").image :=
  ⟨rfl, rfl, rfl, rfl, rfl⟩

/-- Claim C7, amended: `redo()` acts only when `size > 0` and `cursor < size-2`; it
then moves the cursor up by one and restores the entry at index `cursor+2` (counted
from the cursor before the call), which is at most `size-1` and is the last entry
exactly when `cursor = size-3`; in every other state `redo()` changes nothing. -/
theorem redo_restores_cursor_plus_two (e : Editor) :
    (((e.mBackupList.length : Int) > 0 ∧ e.mBackupIndex < (e.mBackupList.length : Int) - 2) →
      e.redo =
          (match listAt e.mBackupList (e.mBackupIndex + 2) with
            | none => Except.error Fault.indexOutOfRange
            | some el => el.restore { e with mBackupIndex := e.mBackupIndex + 1 }) ∧
        e.mBackupIndex + 2 ≤ (e.mBackupList.length : Int) - 1 ∧
        (e.mBackupIndex + 2 = (e.mBackupList.length : Int) - 1 ↔
          e.mBackupIndex = (e.mBackupList.length : Int) - 3)) ∧
    (¬ ((e.mBackupList.length : Int) > 0 ∧
        e.mBackupIndex < (e.mBackupList.length : Int) - 2) → e.redo = Except.ok e) := by
  constructor
  · intro hg
    refine ⟨?_, by omega, by omega⟩
    unfold Editor.redo
    rw [if_pos hg]
    have h2 : e.mBackupIndex + 1 + 1 = e.mBackupIndex + 2 := by omega
    simp only [h2]
  · intro hg
    unfold Editor.redo
    rw [if_neg hg]

/-- At history `[X, Y, Z]` with cursor -1 the guard of `redo()` holds and the entry
restored is `Y`, at index 1. -/
theorem redo_restores_cursor_plus_two_witness :
    (Sample.withHistory
        [Sample.entry 1 1 "X", Sample.entry 1 2 "Y", Sample.entry 1 3 "Z"] (-1)).redo =
      (Sample.entry 1 2 "Y").restore
        (Sample.withHistory
          [Sample.entry 1 1 "X", Sample.entry 1 2 "Y", Sample.entry 1 3 "Z"] 0) :=
  ((redo_restores_cursor_plus_two
    (Sample.withHistory
      [Sample.entry 1 1 "X", Sample.entry 1 2 "Y", Sample.entry 1 3 "Z"] (-1))).1
    (by decide)).1

/-! ## Recording on a layer that holds no images -/

/-- Claim C8, as stated, fails. Layer 1 of the sample document is a SOUND layer.
With history `[a, b, NoOp]` and cursor 0, `backup( 1, 1, … )` leaves the history
`[a]`; with a full history and cursor 19 it leaves 19 entries and cursor 18. -/
theorem backup_other_layer_counterexample :
    (Sample.oneOfThree.mObject.getLayer 1).map Layer.type = some LayerType.SOUND ∧
    (Sample.oneOfThree.backup 1 1 "s").mBackupList = [Sample.entry 1 10 "a"] ∧
    (Sample.oneOfThree.backup 1 1 "s").mBackupList ≠ Sample.oneOfThree.mBackupList ∧
    (Sample.full.backup 1 1 "s").mBackupList = Sample.full.mBackupList.tail ∧
    (Sample.full.backup 1 1 "s").mBackupIndex = 18 ∧
    (Sample.full.backup 1 1 "s").mBackupIndex ≠ Sample.full.mBackupIndex :=
  ⟨rfl, rfl, by decide, rfl, rfl, by decide⟩

theorem backupTrim_eq_self (e : Editor)
    (hend : e.mBackupIndex = (e.mBackupList.length : Int) - 1)
    (hcap : e.mBackupList.length < 20) : e.backupTrim = e := by
  have htake : e.mBackupList.take (e.mBackupIndex + 1).toNat = e.mBackupList := by
    rw [List.take_of_length_le]; omega
  have hlen0 : e.mBackupList.length - 19 = 0 := by omega
  have h1 : e.backupTrim.mBackupList = e.mBackupList := by
    rw [backupTrim_list, htake, hlen0, List.drop_zero]
  have h2 : e.backupTrim.mBackupIndex = e.mBackupIndex := by
    rw [backupTrim_index, htake, hlen0]; simp
  have h3 : e.backupTrim =
      { e with mBackupList := e.backupTrim.mBackupList,
               mBackupIndex := e.backupTrim.mBackupIndex } := rfl
  rw [h3, h1, h2]

/-- Claim C8, amended: `backup( layer, frame, label )` on a layer that is neither
BITMAP nor VECTOR records no entry, but the two loops still run: the history is left
as the first `cursor+1` old entries, less the oldest ones beyond 19 with the cursor
decremented once for each. The list and cursor are exactly as before the call when the
cursor is at the last entry and the size is below 20. -/
theorem backup_other_layer (e : Editor) (l f : Int) (t : String) (lay : Layer)
    (hlay : e.mObject.getLayer l = some lay) (hb : lay.type ≠ LayerType.BITMAP)
    (hv : lay.type ≠ LayerType.VECTOR) :
    e.backup l f t = e.backupTrim ∧
      (e.backup l f t).mBackupList =
        (e.mBackupList.take (e.mBackupIndex + 1).toNat).drop
          ((e.mBackupList.take (e.mBackupIndex + 1).toNat).length - 19) ∧
      (e.backup l f t).mBackupIndex =
        e.mBackupIndex -
          (((e.mBackupList.take (e.mBackupIndex + 1).toNat).length - 19 : Nat) : Int) ∧
      (e.mBackupIndex = (e.mBackupList.length : Int) - 1 → e.mBackupList.length < 20 →
        e.backup l f t = e) := by
  have hobj : e.backupTrim.mObject = e.mObject := rfl
  have h : e.backup l f t = e.backupTrim := by
    unfold Editor.backup
    simp only [hobj, hlay, if_neg hb, if_neg hv]
  refine ⟨h, ?_, ?_, ?_⟩
  · rw [h, backupTrim_list]
  · rw [h, backupTrim_index]
  · intro hend hcap
    rw [h, backupTrim_eq_self e hend hcap]

/-- On the sound layer of the sample document, with history `[X, Y, Z]` and cursor 2,
`backup` leaves the editor as it was. -/
theorem backup_other_layer_witness :
    Sample.xyz.backup 1 1 "s" = Sample.xyz :=
  (backup_other_layer Sample.xyz 1 1 "s" ⟨LayerType.SOUND, []⟩ rfl (by decide)
    (by decide)).2.2.2 rfl (by decide)

/-! ## The zero-argument `backup` -/

/-- The method `backup` changes only the history list and the cursor. -/
theorem backup_fields (e : Editor) (l f : Int) (t : String) :
    (e.backup l f t).lastModifiedLayer = e.lastModifiedLayer ∧
      (e.backup l f t).lastModifiedFrame = e.lastModifiedFrame ∧
      (e.backup l f t).currentLayerIndex = e.currentLayerIndex ∧
      (e.backup l f t).mFrame = e.mFrame ∧ (e.backup l f t).mObject = e.mObject := by
  rcases backup_cases e l f t with h | ⟨el, h⟩ <;> rw [h] <;> exact ⟨rfl, rfl, rfl, rfl, rfl⟩

/-- Claim C9, as stated, fails. The last-modified location (layer 0, frame 1) is
valid and equal to the current layer and frame, yet `backup( label )` appends an
entry to the empty history, and a second call appends another one. -/
theorem backupText_same_cell_counterexample :
    (Sample.sameCell.lastModifiedLayer > -1 ∧ Sample.sameCell.lastModifiedFrame > 0) ∧
    Sample.sameCell.lastModifiedLayer = Sample.sameCell.currentLayerIndex ∧
    Sample.sameCell.lastModifiedFrame = Sample.sameCell.mFrame ∧
    Sample.sameCell.mBackupList = [] ∧
    (Sample.sameCell.backupText "draw").mBackupList = [Sample.entry 1 10 "draw"] ∧
    ((Sample.sameCell.backupText "draw").backupText "draw").mBackupList =
      [Sample.entry 1 10 "draw", Sample.entry 1 10 "draw"] :=
  ⟨by decide, rfl, rfl, rfl, rfl, rfl⟩

/-- Claim C9, amended: in `backup( label )`, a valid last-modified location (layer
above -1, frame above 0) is backed up whether or not it equals the current (layer,
frame). When it equals the current location the call is exactly that one recording,
which appends one entry when the location is recordable; when it differs, the current
location is recorded after it. -/
theorem backupText_valid (e : Editor) (t : String)
    (hvalid : e.lastModifiedLayer > -1 ∧ e.lastModifiedFrame > 0) :
    ((e.lastModifiedLayer = e.currentLayerIndex ∧ e.lastModifiedFrame = e.mFrame) →
      e.backupText t = e.backup e.lastModifiedLayer e.lastModifiedFrame t ∧
        ∀ lay img, e.mObject.getLayer e.lastModifiedLayer = some lay →
          (lay.type = LayerType.BITMAP ∨ lay.type = LayerType.VECTOR) →
          lay.getLastImageAtFrame e.lastModifiedFrame 0 = some img →
          (e.backupText t).mBackupList.length = e.backupTrim.mBackupList.length + 1) ∧
    ((e.lastModifiedLayer ≠ e.currentLayerIndex ∨ e.lastModifiedFrame ≠ e.mFrame) →
      e.backupText t =
        (e.backup e.lastModifiedLayer e.lastModifiedFrame t).backup
          e.currentLayerIndex e.mFrame t) := by
  have hf := backup_fields e e.lastModifiedLayer e.lastModifiedFrame t
  constructor
  · intro hsame
    have h : e.backupText t = e.backup e.lastModifiedLayer e.lastModifiedFrame t := by
      unfold Editor.backupText
      simp only [if_pos hvalid, hf.1, hf.2.1, hf.2.2.1, hf.2.2.2.1]
      rw [if_neg]
      intro hc
      rcases hc with hc | hc
      · exact hc hsame.1
      · exact hc hsame.2
    refine ⟨h, ?_⟩
    intro lay img hlay htype himg
    rw [h, backup_recordable e _ _ t lay img hlay htype himg]
    simp
  · intro hdiff
    unfold Editor.backupText
    simp only [if_pos hvalid, hf.1, hf.2.1, hf.2.2.1, hf.2.2.2.1]
    rw [if_pos hdiff]

/-- The theorem `backupText_valid` at the sample editor whose last-modified location
is the current one: the call is the one recording of that location. -/
theorem backupText_valid_witness :
    Sample.sameCell.backupText "draw" = Sample.sameCell.backup 0 1 "draw" :=
  ((backupText_valid Sample.sameCell "draw" (by decide)).1 ⟨rfl, rfl⟩).1

/-! ## Clearing the history -/

theorem undo_of_empty (cv : Canvas) (e : Editor) (h : e.mBackupList = []) :
    e.undo cv = Except.ok e := by
  unfold Editor.undo
  rw [if_neg]
  rw [h]
  simp

theorem redo_of_empty (e : Editor) (h : e.mBackupList = []) : e.redo = Except.ok e := by
  unfold Editor.redo
  rw [if_neg]
  rw [h]
  simp

/-- Claim C10: after `clearUndoStack()` the history is empty, the cursor is -1 and the
last-modified location is (-1, -1); every sequence of `undo()` and `redo()` calls made
from that state returns the very same state: the history stays empty, the cursor
stays -1 and the document is untouched. -/
theorem clear_then_undo_redo (cv : Canvas) (e : Editor) (calls : List Call)
    (hcalls : ∀ c ∈ calls, c = Call.undo ∨ c = Call.redo) :
    e.clearUndoStack.mBackupList = [] ∧ e.clearUndoStack.mBackupIndex = -1 ∧
      e.clearUndoStack.lastModifiedLayer = -1 ∧ e.clearUndoStack.lastModifiedFrame = -1 ∧
      e.clearUndoStack.mObject = e.mObject ∧
      e.clearUndoStack.run cv calls = Except.ok e.clearUndoStack := by
  refine ⟨clearUndoStack_list e, rfl, rfl, rfl, rfl, ?_⟩
  induction calls with
  | nil => rfl
  | cons c cs ih =>
    have hc := hcalls c (List.mem_cons_self c cs)
    have hstep : e.clearUndoStack.call cv c = Except.ok e.clearUndoStack := by
      rcases hc with hc | hc
      · rw [hc]; exact undo_of_empty cv _ (clearUndoStack_list e)
      · rw [hc]; exact redo_of_empty _ (clearUndoStack_list e)
    simp only [Editor.run, hstep]
    exact ih (fun c1 h1 => hcalls c1 (List.mem_cons_of_mem c h1))

/-- Clearing the sample history `[X, Y, Z]` and then calling undo, redo, redo, undo
gives the fresh sample editor. -/
theorem clear_then_undo_redo_witness :
    Sample.xyz.clearUndoStack.run Sample.canvas
        [Call.undo, Call.redo, Call.redo, Call.undo] = Except.ok Sample.editor :=
  (clear_then_undo_redo Sample.canvas Sample.xyz [Call.undo, Call.redo, Call.redo, Call.undo]
    (by decide)).2.2.2.2.2

/-! ## The indices read by `undo` and `redo` -/

theorem listAt_some_of_range {α : Type} (l : List α) (i : Int) (h0 : 0 ≤ i)
    (h1 : i < (l.length : Int)) : ∃ a, listAt l i = some a := by
  unfold listAt
  rw [if_pos h0]
  have hlt : i.toNat < l.length := by omega
  exact ⟨l[i.toNat], List.getElem?_eq_getElem hlt⟩

/-- The only fault of `restore` is the write through a null image pointer. -/
theorem restore_error (el : BackupElement) (e : Editor) (f : Fault)
    (h : el.restore e = Except.error f) : f = Fault.nullImage := by
  rw [restore_eq] at h
  unfold BackupElement.restoreImage at h
  split at h
  · rename_i f1 hf1
    injection h with h
    subst h
    split at hf1
    · cases hf1
    · split at hf1
      · split at hf1
        · injection hf1 with hf1
          exact hf1.symm
        · cases hf1
      · cases hf1
  · cases h

/-- At the end of the history, when the location of the last entry is recordable,
`undoAtEnd` leaves the trimmed history followed by one `NoOp` element, with the
cursor on the entry just before that element. -/
theorem undoAtEnd_recordable (e : Editor) (last : BackupElement)
    (hend : e.mBackupIndex = (e.mBackupList.length : Int) - 1)
    (hlast : listAt e.mBackupList e.mBackupIndex = some last)
    (hr : last.recordable e.mObject) :
    ∃ e1 N, e.undoAtEnd = Except.ok e1 ∧ e1.mBackupList = e.backupTrim.mBackupList ++ [N] ∧
      e1.mBackupIndex = e.backupTrim.mBackupIndex ∧ e1.mObject = e.mObject ∧
      N.undoText = "NoOp" ∧ N.layer = last.layer ∧ N.frame = last.frame ∧
      some N.image = e.mObject.imageAt last.layer last.frame ∧
      (e.mObject.getLayer last.layer).map Layer.type = some N.type.layerType := by
  obtain ⟨lay, hlay, htype, hsome⟩ := hr
  obtain ⟨img, himg⟩ := Option.isSome_iff_exists.mp hsome
  have hb := backup_recordable e last.layer last.frame "NoOp" lay img hlay htype himg
  refine ⟨_,
    e.newElement
      (if lay.type = LayerType.BITMAP then BackupType.BITMAP_MODIF
        else BackupType.VECTOR_MODIF) last.layer last.frame "NoOp" img,
    undoAtEnd_at_end e last hend hlast, ?_, ?_, ?_, rfl, rfl, rfl, ?_, ?_⟩
  · rw [hb]
  · rw [hb]; simp
  · rw [hb]; rfl
  · unfold Object.imageAt
    rw [hlay]
    exact himg.symm
  · rw [hlay]
    rcases htype with h | h <;> simp [h, Editor.newElement, BackupType.layerType]

theorem backupTrim_length_pos (e : Editor) (h0 : 0 ≤ e.mBackupIndex)
    (h1 : e.mBackupIndex ≤ (e.mBackupList.length : Int) - 1) :
    0 < e.backupTrim.mBackupList.length := by
  rw [backupTrim_list, List.length_drop, List.length_take]
  omega

/-- Claim C11: in every state reached from the empty history by `recordEdit`, `undo`,
`redo` and `clear` calls (with arbitrary document changes in between), `redo()` reads
no index outside `[0, size-1]`: when its guard holds the index `cursor+1` read after
the increment lies in that range. The same holds for `undo()` provided the location
it backs up again, when the cursor is at the last entry, is still a BITMAP or VECTOR
layer with image content at that frame: the special case returns, the cursor it
leaves is the index read and lies in `[0, size-1]` of the list it leaves. Neither call
ends in an out-of-range read. -/
theorem undo_redo_read_in_range (cv : Canvas) (e0 : Editor) (calls : List Call) (e : Editor)
    (hempty : e0.emptyHistory) (hrun : e0.run cv calls = Except.ok e)
    (hrec : ∀ last, e.mBackupIndex = (e.mBackupList.length : Int) - 1 →
      listAt e.mBackupList e.mBackupIndex = some last → last.recordable e.mObject) :
    (((e.mBackupList.length : Int) > 0 ∧ e.mBackupIndex > -1) →
      ∃ e1 el, e.undoAtEnd = Except.ok e1 ∧ 0 ≤ e1.mBackupIndex ∧
        e1.mBackupIndex ≤ (e1.mBackupList.length : Int) - 1 ∧
        listAt e1.mBackupList e1.mBackupIndex = some el) ∧
    e.undo cv ≠ Except.error Fault.indexOutOfRange ∧
    (((e.mBackupList.length : Int) > 0 ∧
        e.mBackupIndex < (e.mBackupList.length : Int) - 2) →
      ∃ el, 0 ≤ e.mBackupIndex + 1 + 1 ∧
        e.mBackupIndex + 1 + 1 ≤ (e.mBackupList.length : Int) - 1 ∧
        listAt e.mBackupList (e.mBackupIndex + 1 + 1) = some el) ∧
    e.redo ≠ Except.error Fault.indexOutOfRange := by
  have hok := run_historyOk cv calls e0 e (emptyHistory_historyOk e0 hempty) hrun
  obtain ⟨_, hlo, hhi⟩ := hok
  have hundo : ((e.mBackupList.length : Int) > 0 ∧ e.mBackupIndex > -1) →
      ∃ e1 el, e.undoAtEnd = Except.ok e1 ∧ 0 ≤ e1.mBackupIndex ∧
        e1.mBackupIndex ≤ (e1.mBackupList.length : Int) - 1 ∧
        listAt e1.mBackupList e1.mBackupIndex = some el := by
    intro hg
    by_cases hend : e.mBackupIndex = (e.mBackupList.length : Int) - 1
    · obtain ⟨last, hlast⟩ := listAt_some_of_range e.mBackupList e.mBackupIndex
        (by omega) (by omega)
      obtain ⟨e1, N, hu, hl, hi, _⟩ :=
        undoAtEnd_recordable e last hend hlast (hrec last hend hlast)
      have hpos := backupTrim_length_pos e (by omega) hhi
      have hieq := backupTrim_index_eq e hlo hhi
      have h0 : 0 ≤ e1.mBackupIndex := by rw [hi, hieq]; omega
      have h1 : e1.mBackupIndex < (e1.mBackupList.length : Int) := by
        rw [hi, hieq, hl, List.length_append, List.length_singleton]; push_cast; omega
      obtain ⟨el, hel⟩ := listAt_some_of_range e1.mBackupList e1.mBackupIndex h0 h1
      exact ⟨e1, el, hu, h0, by omega, hel⟩
    · obtain ⟨el, hel⟩ := listAt_some_of_range e.mBackupList e.mBackupIndex
        (by omega) (by omega)
      exact ⟨e, el, undoAtEnd_not_at_end e hend, by omega, hhi, hel⟩
  have hredo : ((e.mBackupList.length : Int) > 0 ∧
        e.mBackupIndex < (e.mBackupList.length : Int) - 2) →
      ∃ el, 0 ≤ e.mBackupIndex + 1 + 1 ∧
        e.mBackupIndex + 1 + 1 ≤ (e.mBackupList.length : Int) - 1 ∧
        listAt e.mBackupList (e.mBackupIndex + 1 + 1) = some el := by
    intro hg
    obtain ⟨el, hel⟩ := listAt_some_of_range e.mBackupList (e.mBackupIndex + 1 + 1)
      (by omega) (by omega)
    exact ⟨el, by omega, by omega, hel⟩
  refine ⟨hundo, ?_, hredo, ?_⟩
  · intro hc
    unfold Editor.undo at hc
    split at hc
    · rename_i hg
      obtain ⟨e1, el, hu, _, _, hel⟩ := hundo hg
      rw [hu] at hc
      simp only [hel] at hc
      split at hc
      · rename_i f hf
        injection hc with hc
        have := restore_error el e1 f hf
        rw [hc] at this
        cases this
      · cases hc
    · cases hc
  · intro hc
    unfold Editor.redo at hc
    split at hc
    · rename_i hg
      obtain ⟨el, _, _, hel⟩ := hredo hg
      simp only [hel] at hc
      have := restore_error el _ _ hc
      cases this
    · cases hc

/-- After two recordings of frame 1 the cursor is at the last entry, whose location
is recordable; `undo_redo_read_in_range` applies and neither call reads out of
range. -/
theorem undo_redo_read_in_range_witness :
    Sample.editor.emptyHistory ∧
      Sample.editor.run Sample.canvas [Call.recordEdit 0 1 "a", Call.recordEdit 0 1 "b"] =
        Except.ok Sample.twoEntries ∧
      Sample.twoEntries.undo Sample.canvas ≠ Except.error Fault.indexOutOfRange ∧
      Sample.twoEntries.redo ≠ Except.error Fault.indexOutOfRange :=
  have h := undo_redo_read_in_range Sample.canvas Sample.editor
    [Call.recordEdit 0 1 "a", Call.recordEdit 0 1 "b"] Sample.twoEntries ⟨rfl, rfl⟩ rfl
    (by
      intro last _ hl
      have h2 : some (Sample.entry 1 10 "b") = some last := hl
      injection h2 with h2
      subst h2
      exact ⟨⟨LayerType.BITMAP, [(1, 10), (2, 20)]⟩, rfl, Or.inl rfl, rfl⟩)
  ⟨⟨rfl, rfl⟩, rfl, h.2.1, h.2.2.2⟩

/-! ## Loading: failure of the deserializer -/

/-- Once the doctype and root checks have passed, whatever `load` returns is an
object: the value of `ok` is not consulted. -/
theorem load_returns_object (env : LoadEnv) (fuel : Nat) (fm : FileManager)
    (strFileName : String) (xmlDoc : QDomDocument) (root : QDomElement) (r : LoadResult)
    (hex : env.fs.fileExists strFileName = true)
    (hopen : env.fs.canOpen (FileManager.locate env fm strFileName).1 = true)
    (hparse : env.fs.setContent (FileManager.locate env fm strFileName).1 = some xmlDoc)
    (hdoctype : xmlDoc.doctypeName = "PencilDocument" ∨ xmlDoc.doctypeName = "MyObject")
    (hroot : xmlDoc.documentElement = some root)
    (hload : FileManager.load env fuel fm strFileName = Except.ok r) :
    ∃ ok object,
      FileManager.loadBody env fuel (FileManager.locate env fm strFileName).2.2.1 strFileName
          (FileManager.locate env fm strFileName).2.1 root = Except.ok (ok, object) ∧
        r.object = some object := by
  unfold FileManager.load at hload
  simp only [hex, hopen, hparse, hroot, Bool.true_eq_false, if_false, not_not, hdoctype,
    not_true_eq_false] at hload
  split at hload
  · cases hload
  · rename_i ok object hbody
    injection hload with hload
    subst hload
    exact ⟨ok, object, hbody, rfl⟩

/-- Claim C12 at a failing input. The file exists, opens and parses, its doctype is
`PencilDocument` and its root is `<document><object/></document>`; the deserializer
`loadXML` adds one layer and reports failure, so `loadObject` returns `false`. All the
same `load` returns the object, with that layer in it. -/
theorem load_returns_partial_document :
    loadObject (Sample.env Sample.pencilXml false) 0
        (FileManager.loadPalette (Sample.env Sample.pencilXml false) Sample.manager
          Sample.emptyDocument)
        { tagName := "document", attributes := []
          children := [QDomNode.element "object" [] []] } "a.pcl.data" =
      Except.ok (false, { Sample.partialDocument with filePath := "" }) ∧
    FileManager.load (Sample.env Sample.pencilXml false) 0 Sample.manager "a.pcl" =
      Except.ok
        { object := some Sample.partialDocument
          manager := Sample.manager
          events := [FileEvent.progressUpdated, FileEvent.newObject] } :=
  ⟨rfl, rfl⟩

/-! ## Loading: unknown document type -/

theorem locate_events_no_newObject (env : LoadEnv) (fm : FileManager) (strFileName : String) :
    FileEvent.newObject ∉ (FileManager.locate env fm strFileName).2.2.2 := by
  unfold FileManager.locate
  split <;> simp

/-- Claim C13: for every existing file whose main XML opens and parses but whose
doctype name is neither `PencilDocument` nor `MyObject`, `load` returns `nullptr`,
stores `ERROR_INVALID_PENCIL_FILE` in `mError`, and its effects are those of the format
test followed by the clean-up of the working folder: no object is constructed, no
palette loaded, no deserializer called. -/
theorem load_rejects_unknown_doctype (env : LoadEnv) (fuel : Nat) (fm : FileManager)
    (strFileName : String) (xmlDoc : QDomDocument)
    (hex : env.fs.fileExists strFileName = true)
    (hopen : env.fs.canOpen (FileManager.locate env fm strFileName).1 = true)
    (hparse : env.fs.setContent (FileManager.locate env fm strFileName).1 = some xmlDoc)
    (hd1 : xmlDoc.doctypeName ≠ "PencilDocument") (hd2 : xmlDoc.doctypeName ≠ "MyObject") :
    ∃ r, FileManager.load env fuel fm strFileName = Except.ok r ∧ r.object = none ∧
      r.manager =
        { (FileManager.locate env fm strFileName).2.2.1 with
          mError := Status.ERROR_INVALID_PENCIL_FILE } ∧
      r.events =
        FileEvent.progressUpdated :: (FileManager.locate env fm strFileName).2.2.2 ++
          [FileEvent.removePFFTmpDirectory
            (FileManager.locate env fm strFileName).2.2.1.mstrLastTempFolder] ∧
      FileEvent.newObject ∉ r.events := by
  have hd : ¬ (xmlDoc.doctypeName = "PencilDocument" ∨ xmlDoc.doctypeName = "MyObject") := by
    intro h
    rcases h with h | h
    · exact hd1 h
    · exact hd2 h
  refine ⟨
    { object := none
      manager :=
        { (FileManager.locate env fm strFileName).2.2.1 with
          mError := Status.ERROR_INVALID_PENCIL_FILE }
      events :=
        FileEvent.progressUpdated :: (FileManager.locate env fm strFileName).2.2.2 ++
          [FileEvent.removePFFTmpDirectory
            (FileManager.locate env fm strFileName).2.2.1.mstrLastTempFolder] },
    ?_, rfl, rfl, rfl, ?_⟩
  · unfold FileManager.load
    simp only [hex, hopen, hparse, Bool.true_eq_false, if_false, hd, not_false_eq_true,
      if_true]
  · have := locate_events_no_newObject env fm strFileName
    simp [this]

/-- A file whose doctype is `html`: `load` returns no object and records
`ERROR_INVALID_PENCIL_FILE`, whatever the deserializer would have done. -/
theorem load_rejects_unknown_doctype_witness :
    FileManager.load (Sample.env Sample.htmlXml true) 0 Sample.manager "a.pcl" =
      Except.ok
        { object := none
          manager := { Sample.manager with mError := Status.ERROR_INVALID_PENCIL_FILE }
          events := [FileEvent.progressUpdated, FileEvent.removePFFTmpDirectory ""] } ∧
    ∃ r, FileManager.load (Sample.env Sample.htmlXml true) 0 Sample.manager "a.pcl" =
        Except.ok r ∧ r.object = none ∧
      r.manager = { Sample.manager with mError := Status.ERROR_INVALID_PENCIL_FILE } ∧
      r.events = [FileEvent.progressUpdated, FileEvent.removePFFTmpDirectory ""] ∧
      FileEvent.newObject ∉ r.events :=
  ⟨rfl,
    load_rejects_unknown_doctype (Sample.env Sample.htmlXml true) 0 Sample.manager "a.pcl"
      Sample.htmlXml rfl rfl rfl (by decide) (by decide)⟩

/-! ## Loading the editor state -/

/-- On a node that is not an element the loop of `loadEditorState` never ends: the
body leaves `tag` where it is, so no amount of fuel reaches the exit. -/
theorem loadEditorStateLoop_stuck (fuel : Nat) (tag : QDomNode) (siblings : List QDomNode)
    (data : EditorState) (h : tag.toElement = none) :
    loadEditorStateLoop fuel (tag :: siblings) data = Except.error LoadStop.outOfFuel := by
  induction fuel with
  | zero => rfl
  | succ n ih =>
    unfold loadEditorStateLoop
    rw [h]
    exact ih

/-- When every node is an element the loop of `loadEditorState` ends after one
iteration for each node and returns the state it was given, untouched. -/
theorem loadEditorStateLoop_elements (fuel : Nat) (nodes : List QDomNode) (data : EditorState)
    (h : ∀ n ∈ nodes, n.toElement ≠ none) (hfuel : nodes.length ≤ fuel) :
    loadEditorStateLoop fuel nodes data = Except.ok data := by
  induction nodes generalizing fuel with
  | nil => cases fuel <;> rfl
  | cons n rest ih =>
    cases fuel with
    | zero => simp at hfuel
    | succ k =>
      unfold loadEditorStateLoop
      cases hn : n.toElement with
      | none => exact absurd hn (h n (List.mem_cons_self _ _))
      | some el =>
        simp only
        exact ih k (fun m hm => h m (List.mem_cons_of_mem _ hm))
          (by simp only [List.length_cons] at hfuel; omega)

/-- Claim C14 at a failing input. For `<editor><fps value="24"/></editor>` the state
the spec describes has frame rate 24, but `loadEditorState` returns the fresh state,
frame rate 12: its loop never calls `extractEditorStateData`. -/
theorem loadEditorState_ignores_children :
    loadEditorState 1 Sample.freshState (some Sample.editorFps) =
      Except.ok Sample.freshState ∧
    Sample.freshState.mFps = 12 ∧
    (loadEditorStateSpec Sample.conv Sample.freshState Sample.editorFps).mFps = 24 :=
  ⟨rfl, rfl, rfl⟩

/-- Claim C16 at a failing input. For `<editor><!--note--><fps value="24"/></editor>`
`loadEditorState` does not return, whatever the fuel: on the comment the body
executes `continue` before `tag = tag.nextSibling()`. The `for` loop of `loadObject`,
which advances in its header, passes over the same comment. -/
theorem loadEditorState_hangs_on_comment (fuel : Nat) (fresh : EditorState) :
    loadEditorState fuel fresh (some Sample.editorComment) =
      Except.error LoadStop.outOfFuel ∧
    loadObject (Sample.env Sample.pencilXml true) fuel Sample.emptyDocument
        { tagName := "document", attributes := [], children := [QDomNode.comment "note"] }
        "data" = Except.ok (true, Sample.emptyDocument) :=
  ⟨loadEditorStateLoop_stuck fuel (QDomNode.comment "note") _ fresh rfl, rfl⟩

/-! ## The mark-in and mark-out tags -/

/-- Claim C15: for every editor state, an element tagged `markOutFrame` makes
`extractEditorStateData` write the integer value of its `value` attribute (15 when the
attribute is absent) into `mMarkInFrame`, leaving `mMarkOutFrame` and every other
field as they were; an element tagged `markInFrame` writes its value (0 when absent)
into the same field. The conversion `QString::toInt` is any function that reads
`"15"` as 15 and `"0"` as 0. -/
theorem extract_markOutFrame_writes_markIn (conv : QStringConv) (element : QDomElement)
    (data : EditorState) (h15 : conv.toInt "15" = 15) (h0 : conv.toInt "0" = 0) :
    (element.tagName = "markOutFrame" →
      extractEditorStateData conv element data =
          { data with
            mMarkInFrame :=
              match element.attributes.lookup "value" with
              | some v => conv.toInt v
              | none => 15 } ∧
        (extractEditorStateData conv element data).mMarkOutFrame = data.mMarkOutFrame) ∧
    (element.tagName = "markInFrame" →
      extractEditorStateData conv element data =
          { data with
            mMarkInFrame :=
              match element.attributes.lookup "value" with
              | some v => conv.toInt v
              | none => 0 } ∧
        (extractEditorStateData conv element data).mMarkOutFrame = data.mMarkOutFrame) := by
  constructor
  · intro htag
    have h : extractEditorStateData conv element data =
        { data with mMarkInFrame := conv.toInt (element.attribute "value" "15") } := by
      unfold extractEditorStateData
      simp only [htag]
      rfl
    rw [h]
    refine ⟨?_, rfl⟩
    unfold QDomElement.attribute
    cases hv : element.attributes.lookup "value" with
    | none => simp [h15]
    | some v => simp
  · intro htag
    have h : extractEditorStateData conv element data =
        { data with mMarkInFrame := conv.toInt (element.attribute "value" "0") } := by
      unfold extractEditorStateData
      simp only [htag]
      rfl
    rw [h]
    refine ⟨?_, rfl⟩
    unfold QDomElement.attribute
    cases hv : element.attributes.lookup "value" with
    | none => simp [h0]
    | some v => simp

/-- An element `<markOutFrame/>` without attributes sets the mark-in field of the
sample state to 15 and leaves its mark-out field at 10; `<markOutFrame value="42"/>`
sets the mark-in field to 42. -/
theorem extract_markOutFrame_writes_markIn_witness :
    extractEditorStateData Sample.conv
        { tagName := "markOutFrame", attributes := [], children := [] } Sample.freshState =
      { Sample.freshState with mMarkInFrame := 15 } ∧
    (extractEditorStateData Sample.conv
        { tagName := "markOutFrame", attributes := [("value", "42")], children := [] }
        Sample.freshState).mMarkInFrame = 42 ∧
    (extractEditorStateData Sample.conv
        { tagName := "markOutFrame", attributes := [("value", "42")], children := [] }
        Sample.freshState).mMarkOutFrame = 10 :=
  ⟨((extract_markOutFrame_writes_markIn Sample.conv
      { tagName := "markOutFrame", attributes := [], children := [] } Sample.freshState
      rfl rfl).1 rfl).1, rfl, rfl⟩

/-! ## Undo at the end of the history, at any size -/

/-- The method `undo` in terms of the state its special case leaves: the entry at the
adjusted cursor is restored and the cursor decremented. -/
theorem undo_of_undoAtEnd (cv : Canvas) (e e1 : Editor) (el : BackupElement) (o1 : Object)
    (hg : (e.mBackupList.length : Int) > 0 ∧ e.mBackupIndex > -1)
    (hu : e.undoAtEnd = Except.ok e1)
    (hel : listAt e1.mBackupList e1.mBackupIndex = some el)
    (hr : el.restoreImage el.type.layerType e1.mObject = Except.ok o1) :
    ∃ e2, e.undo cv = Except.ok e2 ∧ e2.mObject = o1 ∧ e2.mBackupList = e1.mBackupList ∧
      e2.mBackupIndex = e1.mBackupIndex - 1 := by
  unfold Editor.undo
  rw [if_pos hg, hu]
  simp only [hel, restore_eq, hr]
  exact ⟨_, rfl, rfl, rfl, rfl⟩

/-- With the cursor at the last entry, the trimmed history is the old one without its
oldest entries beyond 19, and the last entry sits at the trimmed cursor. -/
theorem backupTrim_at_end (e : Editor) (last : BackupElement)
    (hend : e.mBackupIndex = (e.mBackupList.length : Int) - 1)
    (hlast : listAt e.mBackupList e.mBackupIndex = some last) :
    e.backupTrim.mBackupList = e.mBackupList.drop (e.mBackupList.length - 19) ∧
      e.backupTrim.mBackupIndex = (e.backupTrim.mBackupList.length : Int) - 1 ∧
      0 < e.backupTrim.mBackupList.length ∧
      listAt e.backupTrim.mBackupList e.backupTrim.mBackupIndex = some last := by
  have hrange := listAt_some_range _ _ _ hlast
  have htake : e.mBackupList.take (e.mBackupIndex + 1).toNat = e.mBackupList := by
    rw [List.take_of_length_le]; omega
  have hl : e.backupTrim.mBackupList = e.mBackupList.drop (e.mBackupList.length - 19) := by
    rw [backupTrim_list, htake]
  have hi : e.backupTrim.mBackupIndex =
      e.mBackupIndex - ((e.mBackupList.length - 19 : Nat) : Int) := by
    rw [backupTrim_index, htake]
  have hieq := backupTrim_index_eq e (by omega) (by omega)
  have hpos := backupTrim_length_pos e hrange.1 (by omega)
  refine ⟨hl, hieq, hpos, ?_⟩
  have h0 : 0 ≤ e.backupTrim.mBackupIndex := by omega
  unfold listAt at hlast ⊢
  rw [if_pos hrange.1] at hlast
  rw [if_pos h0, hl, List.getElem?_drop, ← hlast]
  congr 1
  rw [hi]
  omega

/-- An undo at the end of the history when the location of the last entry is
recordable: the history becomes the trimmed one followed by a `NoOp` snapshot of the
present content of that location, the last entry is restored, and the cursor is left
just below it. -/
theorem undo_at_end_recordable (cv : Canvas) (e : Editor) (last : BackupElement)
    (hend : e.mBackupIndex = (e.mBackupList.length : Int) - 1)
    (hlast : listAt e.mBackupList e.mBackupIndex = some last)
    (hr : last.recordable e.mObject) :
    ∃ e1 N, e.undo cv = Except.ok e1 ∧
      e1.mBackupList = e.mBackupList.drop (e.mBackupList.length - 19) ++ [N] ∧
      e1.mBackupIndex = ((e.mBackupList.drop (e.mBackupList.length - 19)).length : Int) - 2 ∧
      listAt e1.mBackupList (e1.mBackupIndex + 1) = some last ∧
      e.mObject.sameShape e1.mObject ∧
      N.undoText = "NoOp" ∧ N.layer = last.layer ∧ N.frame = last.frame ∧
      some N.image = e.mObject.imageAt last.layer last.frame ∧
      (e.mObject.getLayer last.layer).map Layer.type = some N.type.layerType ∧
      ((e.mObject.getLayer last.layer).map Layer.type = some last.type.layerType →
        e1.mObject.imageAt last.layer last.frame = some last.image) := by
  have hrange := listAt_some_range _ _ _ hlast
  obtain ⟨htl, hti, htpos, htat⟩ := backupTrim_at_end e last hend hlast
  obtain ⟨e0, N, hu0, hl0, hi0, ho0, hN1, hN2, hN3, hN4, hN5⟩ :=
    undoAtEnd_recordable e last hend hlast hr
  have hsome : (e0.mObject.imageAt last.layer last.frame).isSome = true := by
    obtain ⟨lay, hlay, _, hs⟩ := hr
    rw [ho0]
    unfold Object.imageAt
    rw [hlay]
    exact hs
  obtain ⟨o1, hr1, hpres, hmatch, _⟩ :=
    restoreImage_ok last last.type.layerType e0.mObject hsome
  have hat0 : listAt e0.mBackupList e0.mBackupIndex = some last := by
    rw [hl0, hi0]
    have hr2 := listAt_some_range _ _ _ htat
    unfold listAt at htat ⊢
    rw [if_pos hr2.1] at htat ⊢
    rw [List.getElem?_append_left (by omega)]
    exact htat
  obtain ⟨e1, hu1, hobj1, hl1, hi1⟩ :=
    undo_of_undoAtEnd cv e e0 last o1 (by omega) hu0 hat0 hr1
  refine ⟨e1, N, hu1, by rw [hl1, hl0, htl], ?_, ?_, ?_, hN1, hN2, hN3, hN4, hN5, ?_⟩
  · rw [hi1, hi0, hti, htl]; omega
  · rw [hl1, hi1]
    have : e0.mBackupIndex - 1 + 1 = e0.mBackupIndex := by omega
    rw [this]; exact hat0
  · rw [hobj1, ← ho0]; exact hpres
  · intro hm
    rw [hobj1]
    exact hmatch (by rw [ho0]; exact hm)

theorem restorable_recordable (el : BackupElement) (o : Object) (h : el.restorable o) :
    el.recordable o := by
  obtain ⟨lay, h1, h2, h3⟩ := h
  refine ⟨lay, h1, ?_, h3⟩
  rw [h2]
  cases el.type
  · exact Or.inl rfl
  · exact Or.inr rfl

/-! ## Undo followed by redo at the end of the history -/

/-- Claim C17: for every history with size at least 1 and the cursor at the last
entry (size 20 included) whose last entry targets a layer that is still of the
entry's kind with image content at its frame, `undo()` followed by `redo()` both
return; the undo restores the last entry, the redo brings that frame back to the
content it had before the undo, the cursor is left on the entry that was undone, and
the history is the old one (less its oldest entry when it was full) followed by the
re-backup snapshot labelled `NoOp`, which is its last entry. -/
theorem undo_redo_round_trip_at_end (cv : Canvas) (e : Editor) (last : BackupElement)
    (hsize : 1 ≤ e.mBackupList.length)
    (hend : e.mBackupIndex = (e.mBackupList.length : Int) - 1)
    (hlast : listAt e.mBackupList e.mBackupIndex = some last)
    (hr : last.restorable e.mObject) :
    ∃ e1 e2 N, e.undo cv = Except.ok e1 ∧
      e1.mObject.imageAt last.layer last.frame = some last.image ∧
      e1.redo = Except.ok e2 ∧
      e2.mObject.imageAt last.layer last.frame = e.mObject.imageAt last.layer last.frame ∧
      listAt e2.mBackupList e2.mBackupIndex = some last ∧
      e2.mBackupList = e.mBackupList.drop (e.mBackupList.length - 19) ++ [N] ∧
      e2.mBackupList.getLast? = some N ∧ N.undoText = "NoOp" ∧
      N.layer = last.layer ∧ N.frame = last.frame ∧
      some N.image = e.mObject.imageAt last.layer last.frame := by
  obtain ⟨e1, N, hu, hl1, hi1, hat1, hshape, hN1, hN2, hN3, hN4, hN5, hmatch⟩ :=
    undo_at_end_recordable cv e last hend hlast (restorable_recordable last _ hr)
  have hkind := ((restorable_iff last e.mObject).mp hr).1
  have hd : 1 ≤ (e.mBackupList.drop (e.mBackupList.length - 19)).length := by
    rw [List.length_drop]; omega
  have hsome1 : (e1.mObject.imageAt N.layer N.frame).isSome = true := by
    rw [hN2, hN3, (hshape last.layer last.frame).2, ← hN4]; rfl
  obtain ⟨o2, hr2, _, hmatch2, _⟩ := restoreImage_ok N N.type.layerType e1.mObject hsome1
  have hb : listAt e1.mBackupList (e1.mBackupIndex + 1 + 1) = some N := by
    rw [hl1, hi1]
    unfold listAt
    rw [if_pos (by omega)]
    rw [List.getElem?_append_right (by omega)]
    have : ((((e.mBackupList.drop (e.mBackupList.length - 19)).length : Int) - 2 + 1 + 1).toNat
        - (e.mBackupList.drop (e.mBackupList.length - 19)).length) = 0 := by omega
    rw [this]
    rfl
  obtain ⟨e2, hre, hobj2, hl2, hi2⟩ :=
    redo_eq_of_guard e1 N o2
      (by rw [hl1, hi1, List.length_append, List.length_singleton]; push_cast; omega) hb hr2
  refine ⟨e1, e2, N, hu, hmatch hkind, hre, ?_, ?_, by rw [hl2, hl1], ?_, hN1, hN2, hN3, hN4⟩
  · rw [hobj2]
    have hm : (e1.mObject.getLayer N.layer).map Layer.type = some N.type.layerType := by
      rw [hN2, (hshape last.layer last.frame).1]; exact hN5
    have := hmatch2 hm
    rw [hN2, hN3] at this
    rw [this, hN4]
  · rw [hl2, hi2]; exact hat1
  · rw [hl2, hl1]; simp

/-- A full history of 20 snapshots of frame 1 with the cursor at the last one:
`undo_redo_round_trip_at_end` applies with the entry holding 19 as the last entry. -/
theorem undo_redo_round_trip_at_end_witness :
    ∃ e1 e2 N, Sample.full.undo Sample.canvas = Except.ok e1 ∧
      e1.mObject.imageAt (Sample.entry 1 19 "e").layer (Sample.entry 1 19 "e").frame =
        some (Sample.entry 1 19 "e").image ∧
      e1.redo = Except.ok e2 ∧
      e2.mObject.imageAt (Sample.entry 1 19 "e").layer (Sample.entry 1 19 "e").frame =
        Sample.full.mObject.imageAt (Sample.entry 1 19 "e").layer
          (Sample.entry 1 19 "e").frame ∧
      listAt e2.mBackupList e2.mBackupIndex = some (Sample.entry 1 19 "e") ∧
      e2.mBackupList =
        Sample.full.mBackupList.drop (Sample.full.mBackupList.length - 19) ++ [N] ∧
      e2.mBackupList.getLast? = some N ∧ N.undoText = "NoOp" ∧
      N.layer = (Sample.entry 1 19 "e").layer ∧ N.frame = (Sample.entry 1 19 "e").frame ∧
      some N.image =
        Sample.full.mObject.imageAt (Sample.entry 1 19 "e").layer
          (Sample.entry 1 19 "e").frame :=
  undo_redo_round_trip_at_end Sample.canvas Sample.full (Sample.entry 1 19 "e")
    (by decide) rfl rfl ⟨⟨LayerType.BITMAP, [(1, 10), (2, 20)]⟩, rfl, rfl, rfl⟩

/-! ## Undo depth at capacity -/

theorem run_append (cv : Canvas) (e : Editor) (xs ys : List Call) :
    e.run cv (xs ++ ys) =
      match e.run cv xs with
      | Except.error f => Except.error f
      | Except.ok e1 => e1.run cv ys := by
  induction xs generalizing e with
  | nil => rfl
  | cons c cs ih =>
    simp only [List.cons_append, Editor.run]
    cases e.call cv c with
    | error f => rfl
    | ok e1 => exact ih e1

theorem sameShape_trans (o o1 o2 : Object) (h1 : o.sameShape o1) (h2 : o1.sameShape o2) :
    o.sameShape o2 := by
  intro l g
  exact ⟨((h2 l g).1).trans (h1 l g).1, ((h2 l g).2).trans (h1 l g).2⟩

theorem recordable_iff (el : BackupElement) (o : Object) :
    el.recordable o ↔
      ((o.getLayer el.layer).map Layer.type = some LayerType.BITMAP ∨
        (o.getLayer el.layer).map Layer.type = some LayerType.VECTOR) ∧
        (o.imageAt el.layer el.frame).isSome = true := by
  unfold BackupElement.recordable Object.imageAt
  constructor
  · rintro ⟨lay, h1, h2, h3⟩
    rw [h1]
    refine ⟨?_, h3⟩
    rcases h2 with h | h
    · exact Or.inl (by simp [h])
    · exact Or.inr (by simp [h])
  · rintro ⟨h1, h2⟩
    cases hget : o.getLayer el.layer with
    | none => rw [hget] at h2; simp at h2
    | some lay =>
      rw [hget] at h1 h2
      refine ⟨lay, rfl, ?_, h2⟩
      rcases h1 with h | h
      · exact Or.inl (by simpa using h)
      · exact Or.inr (by simpa using h)

theorem recordable_of_sameShape (el : BackupElement) (o o1 : Object) (hs : o.sameShape o1)
    (h : el.recordable o) : el.recordable o1 := by
  rw [recordable_iff] at h ⊢
  rw [(hs el.layer el.frame).1, (hs el.layer el.frame).2]
  exact h

/-- An undo strictly inside the history whose entry targets a recordable location
returns, moves the cursor down by one and leaves the history list as it is; the frame
holds the entry's image when the layer is of the entry's kind. -/
theorem undo_inside_recordable (cv : Canvas) (e : Editor) (a : BackupElement)
    (hne : e.mBackupIndex ≠ (e.mBackupList.length : Int) - 1)
    (ha : listAt e.mBackupList e.mBackupIndex = some a) (hr : a.recordable e.mObject) :
    ∃ e1, e.undo cv = Except.ok e1 ∧ e1.mBackupList = e.mBackupList ∧
      e1.mBackupIndex = e.mBackupIndex - 1 ∧ e.mObject.sameShape e1.mObject ∧
      ((e.mObject.getLayer a.layer).map Layer.type = some a.type.layerType →
        e1.mObject.imageAt a.layer a.frame = some a.image) := by
  have hsome := ((recordable_iff a e.mObject).mp hr).2
  obtain ⟨o1, hr1, hpres, hmatch, _⟩ := restoreImage_ok a a.type.layerType e.mObject hsome
  obtain ⟨e1, hu, hobj, hl, hi⟩ := undo_eq_of_not_at_end cv e a o1 hne ha hr1
  exact ⟨e1, hu, hl, hi, by rw [hobj]; exact hpres, by rw [hobj]; exact hmatch⟩

theorem listAt_mem {α : Type} (l : List α) (i : Int) (a : α) (h : listAt l i = some a) :
    a ∈ l := by
  unfold listAt at h
  split at h
  · exact List.getElem?_mem h
  · cases h

theorem listAt_tail_append {α : Type} (l : List α) (x : α) (j : Int) (h0 : 0 ≤ j)
    (h1 : j + 1 < (l.length : Int)) : listAt (l.tail ++ [x]) j = listAt l (j + 1) := by
  unfold listAt
  rw [if_pos h0, if_pos (by omega),
    List.getElem?_append_left (by rw [List.length_tail]; omega), ← List.drop_one,
    List.getElem?_drop]
  congr 1
  omega

theorem run_undo_last (cv : Canvas) (e s s1 : Editor) (k : Nat)
    (hk : e.run cv (List.replicate k Call.undo) = Except.ok s)
    (hu : s.undo cv = Except.ok s1) :
    e.run cv (List.replicate (k + 1) Call.undo) = Except.ok s1 := by
  rw [List.replicate_succ', run_append, hk]
  simp only [Editor.run, Editor.call, hu]

/-- From a full history with the cursor at its last entry, once the first undo has
evicted the oldest entry and appended `N`, the `k`-th undo (for `k` from 1 to 19)
returns, meets entry `20 - k` of the old history, and leaves the cursor at `18 - k`. -/
theorem undo_chain_at_capacity (cv : Canvas) (e e1 : Editor) (N last : BackupElement)
    (hsize : e.mBackupList.length = 20)
    (hrec : ∀ el ∈ e.mBackupList, el.recordable e.mObject)
    (hlast : listAt e.mBackupList 19 = some last)
    (hu : e.undo cv = Except.ok e1)
    (hl1 : e1.mBackupList = e.mBackupList.tail ++ [N]) (hi1 : e1.mBackupIndex = 17)
    (hshape : e.mObject.sameShape e1.mObject)
    (hmatch : (e.mObject.getLayer last.layer).map Layer.type = some last.type.layerType →
      e1.mObject.imageAt last.layer last.frame = some last.image)
    (k : Nat) (hk1 : 1 ≤ k) (hk19 : k ≤ 19) :
    ∃ s el, e.run cv (List.replicate k Call.undo) = Except.ok s ∧
      listAt e.mBackupList (20 - (k : Int)) = some el ∧
      s.mBackupList = e.mBackupList.tail ++ [N] ∧ s.mBackupIndex = 18 - (k : Int) ∧
      e.mObject.sameShape s.mObject ∧
      ((e.mObject.getLayer el.layer).map Layer.type = some el.type.layerType →
        s.mObject.imageAt el.layer el.frame = some el.image) := by
  induction k with
  | zero => omega
  | succ k ih =>
    by_cases hk0 : k = 0
    · subst hk0
      refine ⟨e1, last, ?_, hlast, hl1, by rw [hi1]; rfl, hshape, hmatch⟩
      simp only [List.replicate, Editor.run, Editor.call, hu]
    · obtain ⟨s, _, hrun, _, hl, hi, hsh, _⟩ := ih (by omega) (by omega)
      have hidx0 : 0 ≤ s.mBackupIndex := by rw [hi]; omega
      have hat : listAt s.mBackupList s.mBackupIndex =
          listAt e.mBackupList (s.mBackupIndex + 1) := by
        rw [hl]
        exact listAt_tail_append e.mBackupList N s.mBackupIndex hidx0 (by rw [hi, hsize]; omega)
      obtain ⟨el, hel⟩ := listAt_some_of_range e.mBackupList (s.mBackupIndex + 1)
        (by omega) (by rw [hi, hsize]; omega)
      rw [hel] at hat
      have hrecel : el.recordable s.mObject :=
        recordable_of_sameShape el _ _ hsh (hrec el (listAt_mem _ _ _ hel))
      obtain ⟨s1, hu1, hl1', hi1', hsh1, hm1⟩ :=
        undo_inside_recordable cv s el
          (by rw [hl, hi, List.length_append, List.length_tail, hsize]; simp; omega) hat hrecel
      refine ⟨s1, el, run_undo_last cv e s s1 k hrun hu1, ?_, by rw [hl1', hl],
        by rw [hi1', hi]; push_cast; omega, sameShape_trans _ _ _ hsh hsh1, ?_⟩
      · rw [← hel, hi]
        congr 1
        push_cast
        omega
      · intro hkind
        exact hm1 (by rw [(hsh el.layer el.frame).1]; exact hkind)

/-- Claim C18: from a history of size 20 with cursor 19 whose entries all target
recordable locations, the first `undo()` evicts the oldest entry and appends its
`NoOp` re-backup `N`; for every `k` from 1 to 19 the first `k` undos return, the
`k`-th one meets entry `20 - k` of the old history (so entries 19 down to 1, never
entry 0), puts that entry's image into its frame when the layer is of its kind, and
leaves the cursor at `18 - k`. After 19 undos the cursor is -1, and the 20th `undo()`
returns the state unchanged. -/
theorem undo_depth_at_capacity (cv : Canvas) (e : Editor)
    (hsize : e.mBackupList.length = 20) (hidx : e.mBackupIndex = 19)
    (hrec : ∀ el ∈ e.mBackupList, el.recordable e.mObject) :
    ∃ N s19,
      (∀ k : Nat, 1 ≤ k → k ≤ 19 →
        ∃ s el, e.run cv (List.replicate k Call.undo) = Except.ok s ∧
          listAt e.mBackupList (20 - (k : Int)) = some el ∧
          s.mBackupList = e.mBackupList.tail ++ [N] ∧ s.mBackupIndex = 18 - (k : Int) ∧
          ((e.mObject.getLayer el.layer).map Layer.type = some el.type.layerType →
            s.mObject.imageAt el.layer el.frame = some el.image)) ∧
      N.undoText = "NoOp" ∧
      e.run cv (List.replicate 19 Call.undo) = Except.ok s19 ∧
      s19.mBackupIndex = -1 ∧ s19.mBackupList.length = 20 ∧
      s19.undo cv = Except.ok s19 ∧
      e.run cv (List.replicate 20 Call.undo) = Except.ok s19 := by
  obtain ⟨last, hlast⟩ := listAt_some_of_range e.mBackupList 19 (by omega)
    (by rw [hsize]; omega)
  have hend : e.mBackupIndex = (e.mBackupList.length : Int) - 1 := by rw [hidx, hsize]; rfl
  have hlast' : listAt e.mBackupList e.mBackupIndex = some last := by rw [hidx]; exact hlast
  obtain ⟨e1, N, hu, hl1, hi1, _, hshape, hN1, _, _, _, _, hmatch⟩ :=
    undo_at_end_recordable cv e last hend hlast' (hrec last (listAt_mem _ _ _ hlast))
  have hdrop : e.mBackupList.drop (e.mBackupList.length - 19) = e.mBackupList.tail := by
    rw [hsize, ← List.drop_one]
  rw [hdrop] at hl1 hi1
  have hi1' : e1.mBackupIndex = 17 := by
    rw [hi1, List.length_tail, hsize]; rfl
  have hchain := undo_chain_at_capacity cv e e1 N last hsize hrec hlast hu hl1 hi1' hshape
    hmatch
  obtain ⟨s19, _, hrun19, _, hl19, hi19, _, _⟩ := hchain 19 (by omega) (by omega)
  have hidx19 : s19.mBackupIndex = -1 := by rw [hi19]; rfl
  have hu19 : s19.undo cv = Except.ok s19 := by
    unfold Editor.undo
    rw [if_neg]
    rw [hidx19]
    omega
  refine ⟨N, s19, ?_, hN1, hrun19, hidx19, ?_, hu19, run_undo_last cv e s19 s19 19 hrun19 hu19⟩
  · intro k hk1 hk19
    obtain ⟨s, el, h1, h2, h3, h4, _, h6⟩ := hchain k hk1 hk19
    exact ⟨s, el, h1, h2, h3, h4, h6⟩
  · rw [hl19, List.length_append, List.length_tail, hsize]
    rfl

/-- The theorem `undo_depth_at_capacity` at the full sample history: 19 undos end with
cursor -1 and with frame 1 holding the image of old entry 1, not of entry 0, and the
20th undo changes nothing. -/
theorem undo_depth_at_capacity_witness :
    Sample.full.run Sample.canvas (List.replicate 19 Call.undo) =
      Except.ok Sample.fullUndone ∧
    Sample.full.run Sample.canvas (List.replicate 20 Call.undo) =
      Except.ok Sample.fullUndone ∧
    ∃ s19, Sample.full.run Sample.canvas (List.replicate 19 Call.undo) = Except.ok s19 ∧
      s19.mBackupIndex = -1 ∧ s19.undo Sample.canvas = Except.ok s19 := by
  refine ⟨rfl, rfl, ?_⟩
  obtain ⟨_, s19, _, _, h3, h4, _, h6, _⟩ :=
    undo_depth_at_capacity Sample.canvas Sample.full rfl rfl
      (by
        intro el hel
        simp only [Sample.full, Sample.withHistory, List.mem_map] at hel
        obtain ⟨i, _, hi⟩ := hel
        subst hi
        exact ⟨⟨LayerType.BITMAP, [(1, 10), (2, 20)]⟩, rfl, Or.inl rfl, rfl⟩)
  exact ⟨s19, h3, h4, h6⟩

end Pencil
